import Mathlib

/-!
Verification of the DBLite server (`src/v1/dblite.py`): a shallow embedding of
the wire-protocol codec (`ProtocolHandler`), the key-space engine
(`DBLiteServer`) and the command dispatcher (`respond`), together with proofs
of the specified properties.

Modelling conventions:
* Python byte strings are `List Nat` (one entry per byte).
* Python floats are modelled as rationals (every comparison and truncation the
  code performs on the values appearing in the theorems is exact).
* Python dicts are insertion-ordered association lists: assignment replaces a
  present key in place and appends a missing one, matching CPython semantics.
* The `heapq` min-heap of `(eta, key)` pairs is modelled by its observable
  pop-order abstraction: a list kept sorted under the lexicographic tuple
  order that `heapq` uses.
-/

namespace DBLite

/-- The wire-value algebra produced by `ProtocolHandler.handle_request` and
consumed by `ProtocolHandler._write`: bytes, integer, float, null, error,
array, mapping, set.  Mappings are insertion-ordered association lists and
sets are insertion-ordered duplicate-free lists, matching the dict/set model
above. -/
inductive RVal where
  | bytes : List Nat → RVal
  | int : Int → RVal
  | float : ℚ → RVal
  | null : RVal
  | err : List Nat → RVal
  | arr : List RVal → RVal
  | map : List (RVal × RVal) → RVal
  | set : List RVal → RVal

mutual

/-- Structural equality on wire values: Python `==` on the corresponding
Python objects. -/
def beqR : RVal → RVal → Bool
  | .bytes a, .bytes b => decide (a = b)
  | .int a, .int b => decide (a = b)
  | .float a, .float b => decide (a = b)
  | .null, .null => true
  | .err a, .err b => decide (a = b)
  | .arr a, .arr b => beqL a b
  | .map a, .map b => beqP a b
  | .set a, .set b => beqL a b
  | _, _ => false

def beqL : List RVal → List RVal → Bool
  | [], [] => true
  | a :: as, b :: bs => beqR a b && beqL as bs
  | _, _ => false

def beqP : List (RVal × RVal) → List (RVal × RVal) → Bool
  | [], [] => true
  | a :: as, b :: bs => beqR a.1 b.1 && beqR a.2 b.2 && beqP as bs
  | _, _ => false

end

/-! ### Byte-stream reading primitives (`socket_file.readline`, `read`, `rstrip`) -/

/-- `file.readline()`: the bytes up to and including the first `\n` (byte 10),
or the whole stream if none, paired with the remainder. -/
def readLine : List Nat → List Nat × List Nat
  | [] => ([], [])
  | b :: t =>
      if b = 10 then ([10], t)
      else
        let p := readLine t
        (b :: p.1, p.2)

/-- `bytes.rstrip(b'\r\n')`: remove every trailing byte 13 or 10. -/
def rstripCRLF (l : List Nat) : List Nat :=
  (l.reverse.dropWhile (fun b => b = 13 ∨ b = 10)).reverse

/-- `readline().rstrip(b'\r\n')` plus the unread remainder. -/
def readLineStrip (s : List Nat) : List Nat × List Nat :=
  let p := readLine s
  (rstripCRLF p.1, p.2)

/-- ASCII decimal digit test. -/
def isDigitByte (b : Nat) : Bool := decide (48 ≤ b) && decide (b ≤ 57)

/-- Python `int(bytes)` on a plain digit string (no sign). -/
def parseNatB (l : List Nat) : Option Nat :=
  if l ≠ [] ∧ l.all isDigitByte then
    some (l.foldl (fun a b => a * 10 + (b - 48)) 0)
  else
    none

/-- Python `int(bytes)` on an optionally `-`-signed digit string; `none`
models the `ValueError` raised on anything else.  (CPython additionally
accepts surrounding whitespace, a leading `+` and underscores; no value
produced by the encoder or appearing in a claim uses those forms.) -/
def parseIntB : List Nat → Option Int
  | [] => none
  | c :: t =>
      if c = 45 then (parseNatB t).map (fun n => -(n : Int))
      else (parseNatB (c :: t)).map (fun n => (n : Int))

/-- Python `float(bytes)` restricted to `digits.digits` with optional sign;
`none` models `ValueError`.  Only reached on `:` lines containing `.`. -/
def parseFloatB (l : List Nat) : Option ℚ :=
  let core : List Nat → Option ℚ := fun l =>
    match l.splitOn 46 with
    | [a, b] =>
        match parseNatB a, parseNatB b with
        | some x, some y => some ((x : ℚ) + (y : ℚ) / ((10 : ℚ) ^ b.length))
        | _, _ => none
    | _ => none
  match l with
  | 45 :: t => (core t).map (fun q => -q)
  | _ => core l

/-! ### Decoder (`ProtocolHandler.handle_request` and the per-tag handlers) -/

/-- Decoder failure: `eof` models `EOFError` (empty read at a frame start),
`valueError` models the `ValueError` escaping from `int()`/`float()` on a bad
length or numeric line.  `fuel` is an artifact of the fuel-indexed model and
is never reached at the fuel bounds used in the theorems. -/
inductive DErr where
  | eof
  | valueError
  | fuel
deriving DecidableEq

/-- Python dict assignment `d[k] = v` for dicts keyed by wire values:
replace in place when the key is present, append otherwise. -/
def rDictSet (m : List (RVal × RVal)) (k v : RVal) : List (RVal × RVal) :=
  if m.any (fun p => beqR p.1 k) then
    m.map (fun p => if beqR p.1 k then (p.1, v) else p)
  else m ++ [(k, v)]

/-- Python `d.get(k)` for dicts keyed by wire values. -/
def rDictGet? (m : List (RVal × RVal)) (k : RVal) : Option RVal :=
  (m.find? (fun p => beqR p.1 k)).map (fun p => p.2)

/-- Python `dict(zip(keys, values))` over an ordered pair list: fold of
insertion-ordered dict assignment (replace in place, else append). -/
def pyDictOfPairs (l : List (RVal × RVal)) : List (RVal × RVal) :=
  l.foldl (fun acc kv => rDictSet acc kv.1 kv.2) []

/-- Python `set(list)`: deduplicate keeping first occurrences. -/
def pySetOfList (l : List RVal) : List RVal :=
  l.foldl (fun acc v => if acc.any (beqR v) then acc else acc ++ [v]) []

/-- Pair up consecutive elements: `zip(el[::2], el[1::2])`. -/
def pairUp : List RVal → List (RVal × RVal)
  | k :: v :: t => (k, v) :: pairUp t
  | _ => []

mutual

/-- `ProtocolHandler.handle_request`: read one tag byte and dispatch.  An
unrecognized tag byte falls back to the inline token (tag byte plus the
stripped rest of the line).  Fuel decreases at each nested frame; every
theorem quantifies over sufficient fuel. -/
def handle_request : Nat → List Nat → Except DErr (RVal × List Nat)
  | 0, _ => .error .fuel
  | fuel + 1, s =>
    match s with
    | [] => .error .eof
    | b :: rest =>
      match b with
      | 43 => -- '+' simple string
          let p := readLineStrip rest
          .ok (.bytes p.1, p.2)
      | 45 => -- '-' error
          let p := readLineStrip rest
          .ok (.err p.1, p.2)
      | 58 => -- ':' integer, or float when the line contains '.'
          let p := readLineStrip rest
          if 46 ∈ p.1 then
            match parseFloatB p.1 with
            | some q => .ok (.float q, p.2)
            | none => .error .valueError
          else
            match parseIntB p.1 with
            | some n => .ok (.int n, p.2)
            | none => .error .valueError
      | 36 => -- '$' bulk string: `read(length + 2)[:-2]`, no validation
          let p := readLineStrip rest
          match parseIntB p.1 with
          | some len =>
              if len = -1 then .ok (.null, p.2)
              else
                let chunk := p.2.take (len + 2).toNat
                .ok (.bytes (chunk.take (chunk.length - 2)), p.2.drop (len + 2).toNat)
          | none => .error .valueError
      | 42 => -- '*' array
          let p := readLineStrip rest
          match parseIntB p.1 with
          | some n =>
              match handleMany fuel n.toNat p.2 with
              | .ok (vs, r) => .ok (.arr vs, r)
              | .error e => .error e
          | none => .error .valueError
      | 37 => -- '%' mapping: `num * 2` nested frames, then dict(zip(...))
          let p := readLineStrip rest
          match parseIntB p.1 with
          | some n =>
              match handleMany fuel (n * 2).toNat p.2 with
              | .ok (vs, r) => .ok (.map (pyDictOfPairs (pairUp vs)), r)
              | .error e => .error e
          | none => .error .valueError
      | 38 => -- '&' set
          let p := readLineStrip rest
          match parseIntB p.1 with
          | some n =>
              match handleMany fuel n.toNat p.2 with
              | .ok (vs, r) => .ok (.set (pySetOfList vs), r)
              | .error e => .error e
          | none => .error .valueError
      | _ => -- unknown tag: inline token fallback
          let p := readLineStrip rest
          .ok (.bytes (b :: p.1), p.2)
termination_by fuel s => (fuel, 0)

/-- `[self.handle_request(sf) for _ in range(num)]`. -/
def handleMany : Nat → Nat → List Nat → Except DErr (List RVal × List Nat)
  | _, 0, s => .ok ([], s)
  | fuel, n + 1, s =>
      match handle_request fuel s with
      | .error e => .error e
      | .ok (v, s1) =>
          match handleMany fuel n s1 with
          | .error e => .error e
          | .ok (vs, s2) => .ok (v :: vs, s2)
termination_by fuel n s => (fuel, n + 1)

end

/-! ### Encoder (`ProtocolHandler._write`) -/

/-- The decimal ASCII digits of `n` (empty for 0, matching `Nat.digits`). -/
def natToDigits (n : Nat) : List Nat :=
  ((Nat.digits 10 n).map (fun d => d + 48)).reverse

/-- `b'%d' % i`: decimal rendering of an integer. -/
def intToBytes : Int → List Nat
  | .ofNat n => if n = 0 then [48] else natToDigits n
  | .negSucc m => 45 :: natToDigits (m + 1)

/-- `b'%d' % f`: Python truncates the float toward zero. -/
def pyTruncQ (q : ℚ) : Int := q.num.tdiv q.den

mutual

/-- `ProtocolHandler._write`: serialize one value to bytes.  Floats go
through the integer branch (`isinstance(data, (int, float))` with `b':%d'`),
truncating toward zero. -/
def pwrite : RVal → List Nat
  | .bytes b => 36 :: intToBytes b.length ++ [13, 10] ++ b ++ [13, 10]
  | .int i => 58 :: intToBytes i ++ [13, 10]
  | .float q => 58 :: intToBytes (pyTruncQ q) ++ [13, 10]
  | .null => [36, 45, 49, 13, 10]
  | .err m => 45 :: m ++ [13, 10]
  | .arr l => 42 :: intToBytes l.length ++ [13, 10] ++ pwriteList l
  | .map m => 37 :: intToBytes m.length ++ [13, 10] ++ pwritePairs m
  | .set l => 38 :: intToBytes l.length ++ [13, 10] ++ pwriteList l

def pwriteList : List RVal → List Nat
  | [] => []
  | v :: t => pwrite v ++ pwriteList t

def pwritePairs : List (RVal × RVal) → List Nat
  | [] => []
  | kv :: t => pwrite kv.1 ++ pwrite kv.2 ++ pwritePairs t

end

/-! ### Insertion-ordered dictionaries with decidable-equality keys

CPython dicts preserve insertion order; assignment to a present key keeps its
position, assignment to an absent key appends, and deletion removes the
entry.  Used for `self.kv` and `self.expiry_map` (byte-string keys) and the
model file system. -/

section AList

variable {K V : Type} [DecidableEq K]

def aget? : List (K × V) → K → Option V
  | [], _ => none
  | p :: t, k => if p.1 = k then some p.2 else aget? t k

def aset : List (K × V) → K → V → List (K × V)
  | [], k, v => [(k, v)]
  | p :: t, k, v => if p.1 = k then (k, v) :: t else p :: aset t k v

def adel (m : List (K × V)) (k : K) : List (K × V) :=
  m.filter (fun p => p.1 ≠ k)

def acontains (m : List (K × V)) (k : K) : Bool :=
  (aget? m k).isSome

end AList

/-! ### Key-space engine (`DBLiteServer`) -/

/-- Datatype tags, as in the source: `KV = 0`, `HASH = 1`, `QUEUE = 2`,
`SET = 3`. -/
def KV : Nat := 0
def HASH : Nat := 1
def QUEUE : Nat := 2
def SET : Nat := 3

/-- The payload stored alongside a tag: a scalar for STRING keys, a dict for
hashes, a deque (front = head) for lists, an insertion-ordered
duplicate-free list for sets. -/
inductive Payload where
  | pstr : RVal → Payload
  | phash : List (RVal × RVal) → Payload
  | pqueue : List RVal → Payload
  | pset : List RVal → Payload

/-- `Value = namedtuple('Value', ('data_type', 'value'))`. -/
structure Value where
  data_type : Nat
  value : Payload

/-- The aggregate counters in `self.stats`. -/
structure Stats where
  active_connections : Nat
  commands_processed : Nat
  command_errors : Nat
  connections : Nat

/-- The engine state: `self.kv`, `self.expiry` (the heap), `self.expiry_map`
and `self.stats`.  Wall-clock time (`time.time()`) is passed to each command
explicitly. -/
structure Server where
  kv : List (List Nat × Value)
  expiry : List (ℚ × List Nat)
  expiry_map : List (List Nat × ℚ)
  stats : Stats

/-- Command results: a wire value, the Python status string `'OK'`, a raised
`Error(message)`, or the `ClientQuit`/`Shutdown` control-flow signals. -/
inductive Ret where
  | val : RVal → Ret
  | ok : Ret
  | err : String → Ret
  | quitSig : Ret
  | shutdownSig : Ret

/-- `DBLiteServer.check_expired`: `key in self.expiry_map and ts >
self.expiry_map[key]` (strict comparison). -/
def check_expired (s : Server) (ts : ℚ) (key : List Nat) : Bool :=
  match aget? s.expiry_map key with
  | some d => decide (ts > d)
  | none => false

/-- The loop body of `DBLiteServer.clean_expired`: pop heap entries with
`eta ≤ ts`; delete the expiry-map and key-space entries of each popped pair
whose deadline matches the authoritative map; count the deletions. -/
def cleanLoop : List (ℚ × List Nat) → List (List Nat × ℚ) → List (List Nat × Value) → ℚ →
    List (ℚ × List Nat) × List (List Nat × ℚ) × List (List Nat × Value) × Nat
  | [], m, kv, _ => ([], m, kv, 0)
  | (eta, key) :: t, m, kv, ts =>
      if eta > ts then ((eta, key) :: t, m, kv, 0)
      else if aget? m key = some eta then
        let r := cleanLoop t (adel m key) (adel kv key) ts
        (r.1, r.2.1, r.2.2.1, r.2.2.2 + 1)
      else cleanLoop t m kv ts

/-- `DBLiteServer.clean_expired`. -/
def clean_expired (s : Server) (ts : ℚ) : Server × Nat :=
  let r := cleanLoop s.expiry s.expiry_map s.kv ts
  ({ s with expiry := r.1, expiry_map := r.2.1, kv := r.2.2.1 }, r.2.2.2)

/-- `DBLiteServer.unexpire`: `self.expiry_map.pop(key, None)`. -/
def unexpire (s : Server) (key : List Nat) : Server :=
  { s with expiry_map := adel s.expiry_map key }

/-- The state transformation shared by every `@enforce_datatype` command and
(with different continuations) `kv_get`/`kv_exists`: run the lazy sweep, then
drop the touched key if its own deadline has strictly passed. -/
def expiryPhase (s : Server) (ts : ℚ) (key : List Nat) : Server :=
  let s1 := (clean_expired s ts).1
  if check_expired s1 ts key then { s1 with kv := adel s1.kv key } else s1

/-- The empty container created by `enforce_datatype` for a missing key
(`''`, `{}`, `deque()`, `set()`).  The catch-all is unreachable: the
decorator is only instantiated at the four tags. -/
def emptyPayload : Nat → Payload
  | 1 => .phash []
  | 2 => .pqueue []
  | 3 => .pset []
  | _ => .pstr (.bytes [])

/-- `DBLiteServer.enforce_datatype(data_type, set_missing=True)`: sweep, drop
the touched key if expired, then fail with `WRONGTYPE` on a tag mismatch or
create the empty container when the key is missing.  Returns the error (if
any) together with the state at that point — mutations made before the raise
persist, as in the source. -/
def enforce_datatype (dt : Nat) (s : Server) (ts : ℚ) (key : List Nat) :
    Option String × Server :=
  let s2 := expiryPhase s ts key
  match aget? s2.kv key with
  | some v =>
      if v.data_type ≠ dt then
        (some "WRONGTYPE Operation against a key holding the wrong kind of value", s2)
      else (none, s2)
  | none => (none, { s2 with kv := aset s2.kv key ⟨dt, emptyPayload dt⟩ })

/-- How `_write` would see a stored payload: deques serialize like lists,
dicts like mappings, sets like sets. -/
def rvalOfPayload : Payload → RVal
  | .pstr v => v
  | .phash m => .map m
  | .pqueue q => .arr q
  | .pset x => .set x

/-- `DBLiteServer.kv_set`: no sweep; clears the TTL and replaces any existing
entry with a STRING entry. -/
def kv_set (s : Server) (key : List Nat) (v : RVal) : Ret × Server :=
  let s1 := unexpire s key
  (.ok, { s1 with kv := aset s1.kv key ⟨KV, .pstr v⟩ })

/-- `DBLiteServer.kv_get`. -/
def kv_get (s : Server) (ts : ℚ) (key : List Nat) : Ret × Server :=
  let s1 := (clean_expired s ts).1
  if check_expired s1 ts key then (.val .null, { s1 with kv := adel s1.kv key })
  else
    match aget? s1.kv key with
    | some v => (.val (rvalOfPayload v.value), s1)
    | none => (.val .null, s1)

/-- `DBLiteServer.kv_delete`. -/
def kv_delete (s : Server) (ts : ℚ) (key : List Nat) : Ret × Server :=
  let s1 := (clean_expired s ts).1
  if acontains s1.kv key then
    (.val (.int 1), unexpire { s1 with kv := adel s1.kv key } key)
  else (.val (.int 0), s1)

/-- `DBLiteServer.kv_exists`. -/
def kv_exists (s : Server) (ts : ℚ) (key : List Nat) : Ret × Server :=
  let s1 := (clean_expired s ts).1
  if check_expired s1 ts key then (.val (.int 0), { s1 with kv := adel s1.kv key })
  else (.val (.int (if acontains s1.kv key then 1 else 0)), s1)

/-- `DBLiteServer.lpush`: `deque.extendleft(values)` prepends the arguments
one by one, so the block ends up reversed at the front; returns the new
length.  The non-queue payload branches model the `AttributeError` a
tag/payload mismatch would raise; they are unreachable after
`enforce_datatype`. -/
def lpush (s : Server) (ts : ℚ) (key : List Nat) (vs : List RVal) : Ret × Server :=
  match enforce_datatype QUEUE s ts key with
  | (some e, s1) => (.err e, s1)
  | (none, s1) =>
      match aget? s1.kv key with
      | some v =>
          match v.value with
          | .pqueue q =>
              let q2 := vs.reverse ++ q
              (.val (.int q2.length), { s1 with kv := aset s1.kv key ⟨v.data_type, .pqueue q2⟩ })
          | _ => (.err "AttributeError", s1)
      | none => (.err "KeyError", s1)

/-- `DBLiteServer.lpop`: `popleft()`, `None` on `IndexError`; the container
is left in place either way. -/
def lpop (s : Server) (ts : ℚ) (key : List Nat) : Ret × Server :=
  match enforce_datatype QUEUE s ts key with
  | (some e, s1) => (.err e, s1)
  | (none, s1) =>
      match aget? s1.kv key with
      | some v =>
          match v.value with
          | .pqueue [] => (.val .null, s1)
          | .pqueue (x :: q) =>
              (.val x, { s1 with kv := aset s1.kv key ⟨v.data_type, .pqueue q⟩ })
          | _ => (.err "AttributeError", s1)
      | none => (.err "KeyError", s1)

/-- `DBLiteServer.hset`: always returns 1. -/
def hset (s : Server) (ts : ℚ) (key : List Nat) (field value : RVal) : Ret × Server :=
  match enforce_datatype HASH s ts key with
  | (some e, s1) => (.err e, s1)
  | (none, s1) =>
      match aget? s1.kv key with
      | some v =>
          match v.value with
          | .phash m =>
              (.val (.int 1), { s1 with kv := aset s1.kv key ⟨v.data_type, .phash (rDictSet m field value)⟩ })
          | _ => (.err "TypeError", s1)
      | none => (.err "KeyError", s1)

/-- `DBLiteServer.hget`: `self.kv[key].value.get(field)` (None → null). -/
def hget (s : Server) (ts : ℚ) (key : List Nat) (field : RVal) : Ret × Server :=
  match enforce_datatype HASH s ts key with
  | (some e, s1) => (.err e, s1)
  | (none, s1) =>
      match aget? s1.kv key with
      | some v =>
          match v.value with
          | .phash m =>
              match rDictGet? m field with
              | some x => (.val x, s1)
              | none => (.val .null, s1)
          | _ => (.err "AttributeError", s1)
      | none => (.err "KeyError", s1)

/-- `DBLiteServer.sadd`: add each member not already present, counting the
additions. -/
def sadd (s : Server) (ts : ℚ) (key : List Nat) (members : List RVal) : Ret × Server :=
  match enforce_datatype SET s ts key with
  | (some e, s1) => (.err e, s1)
  | (none, s1) =>
      match aget? s1.kv key with
      | some v =>
          match v.value with
          | .pset x =>
              let r := members.foldl
                (fun acc mem => if acc.1.any (fun e => beqR e mem) then acc else (acc.1 ++ [mem], acc.2 + 1))
                (x, (0 : Nat))
              (.val (.int r.2), { s1 with kv := aset s1.kv key ⟨v.data_type, .pset r.1⟩ })
          | _ => (.err "AttributeError", s1)
      | none => (.err "KeyError", s1)

/-- `DBLiteServer.smembers`: `list(self.kv[key].value)`. -/
def smembers (s : Server) (ts : ℚ) (key : List Nat) : Ret × Server :=
  match enforce_datatype SET s ts key with
  | (some e, s1) => (.err e, s1)
  | (none, s1) =>
      match aget? s1.kv key with
      | some v =>
          match v.value with
          | .pset x => (.val (.arr x), s1)
          | _ => (.err "TypeError", s1)
      | none => (.err "KeyError", s1)

/-- Lexicographic comparison of byte strings (Python `bytes` `<`). -/
def bytesLtB : List Nat → List Nat → Bool
  | [], [] => false
  | [], _ :: _ => true
  | _ :: _, [] => false
  | a :: as, b :: bs => decide (a < b) || (decide (a = b) && bytesLtB as bs)

/-- Python tuple `≤` on `(eta, key)` pairs, the order `heapq` uses. -/
def tupLeB (a b : ℚ × List Nat) : Bool :=
  decide (a.1 < b.1) || (decide (a.1 = b.1) && (bytesLtB a.2 b.2 || decide (a.2 = b.2)))

/-- `heapq.heappush`, in the sorted-sequence abstraction of the heap: insert
at the first position where the pushed pair is `≤` the resident. -/
def heapPush : List (ℚ × List Nat) → ℚ × List Nat → List (ℚ × List Nat)
  | [], x => [x]
  | y :: t, x => if tupLeB x y then x :: y :: t else y :: heapPush t x

/-- `DBLiteServer.expire`: no sweep; 0 when the key is not in `self.kv`,
otherwise schedule `eta = ts + int(seconds)` (map write plus heap push) and
return 1. -/
def expire (s : Server) (ts : ℚ) (key : List Nat) (seconds : Int) : Ret × Server :=
  if acontains s.kv key then
    let eta := ts + (seconds : ℚ)
    (.val (.int 1),
     { s with expiry_map := aset s.expiry_map key eta, expiry := heapPush s.expiry (eta, key) })
  else (.val (.int 0), s)

/-- `DBLiteServer.flush_all`. -/
def flush_all (s : Server) : Ret × Server :=
  (.ok, { s with kv := [], expiry := [], expiry_map := [] })

/-- What `pickle.dump({'kv': self.kv, 'expiry_map': self.expiry_map}, f)`
persists; pickle round-trips these objects exactly, so the model stores the
structures themselves. -/
structure Snapshot where
  kv : List (List Nat × Value)
  expiry_map : List (List Nat × ℚ)

/-- The model file system: a mapping from file names to snapshot contents. -/
abbrev FS := List (List Nat × Snapshot)

/-- `DBLiteServer.save_to_disk`: overwrite the target path. -/
def save_to_disk (fs : FS) (s : Server) (filename : List Nat) : Ret × Server × FS :=
  (.ok, s, aset fs filename ⟨s.kv, s.expiry_map⟩)

/-- The heap-rebuild loop in `restore_from_disk`: push every `(eta, key)` of
the restored expiry map into a fresh heap. -/
def heapFromMap (m : List (List Nat × ℚ)) : List (ℚ × List Nat) :=
  m.foldl (fun h p => heapPush h (p.2, p.1)) []

/-- `DBLiteServer.restore_from_disk`: 0 when the file is missing, else
replace `kv` and `expiry_map` and rebuild the heap from the map. -/
def restore_from_disk (fs : FS) (s : Server) (filename : List Nat) : Ret × Server × FS :=
  match aget? fs filename with
  | none => (.val (.int 0), s, fs)
  | some snap =>
      (.val (.int 1),
       { kv := snap.kv, expiry_map := snap.expiry_map,
         expiry := heapFromMap snap.expiry_map, stats := s.stats },
       fs)

/-- ASCII bytes of a string literal. -/
def bytesOfAscii (str : String) : List Nat := str.toList.map Char.toNat

/-- `DBLiteServer.info`: sweep, then report the counters and the live key
count (dict keys serialize like byte strings on the wire). -/
def info (s : Server) (ts : ℚ) : Ret × Server :=
  let s1 := (clean_expired s ts).1
  (.val (.map
    [(.bytes (bytesOfAscii "active_connections"), .int s1.stats.active_connections),
     (.bytes (bytesOfAscii "commands_processed"), .int s1.stats.commands_processed),
     (.bytes (bytesOfAscii "command_errors"), .int s1.stats.command_errors),
     (.bytes (bytesOfAscii "connections"), .int s1.stats.connections),
     (.bytes (bytesOfAscii "keys"), .int s1.kv.length)]), s1)

/-! ### Dispatch (`DBLiteServer.respond` and `get_commands`) -/

/-- One engine command with parsed arguments (the capabilities registered in
`get_commands`). -/
inductive Cmd where
  | set (key : List Nat) (v : RVal)
  | get (key : List Nat)
  | delete (key : List Nat)
  | exists' (key : List Nat)
  | lpush (key : List Nat) (vs : List RVal)
  | lpop (key : List Nat)
  | hset (key : List Nat) (field value : RVal)
  | hget (key : List Nat) (field : RVal)
  | sadd (key : List Nat) (members : List RVal)
  | smembers (key : List Nat)
  | expire (key : List Nat) (seconds : Int)
  | flushall
  | save (filename : List Nat)
  | restore (filename : List Nat)
  | info
  | quit
  | shutdown

/-- Execute one command against the engine (and the model file system). -/
def runCmd (fs : FS) (s : Server) (ts : ℚ) : Cmd → Ret × Server × FS
  | .set k v => let r := kv_set s k v; (r.1, r.2, fs)
  | .get k => let r := kv_get s ts k; (r.1, r.2, fs)
  | .delete k => let r := kv_delete s ts k; (r.1, r.2, fs)
  | .exists' k => let r := kv_exists s ts k; (r.1, r.2, fs)
  | .lpush k vs => let r := lpush s ts k vs; (r.1, r.2, fs)
  | .lpop k => let r := lpop s ts k; (r.1, r.2, fs)
  | .hset k f v => let r := hset s ts k f v; (r.1, r.2, fs)
  | .hget k f => let r := hget s ts k f; (r.1, r.2, fs)
  | .sadd k ms => let r := sadd s ts k ms; (r.1, r.2, fs)
  | .smembers k => let r := smembers s ts k; (r.1, r.2, fs)
  | .expire k n => let r := expire s ts k n; (r.1, r.2, fs)
  | .flushall => let r := flush_all s; (r.1, r.2, fs)
  | .save f => save_to_disk fs s f
  | .restore f => restore_from_disk fs s f
  | .info => let r := info s ts; (r.1, r.2, fs)
  | .quit => (.quitSig, s, fs)
  | .shutdown => (.shutdownSig, s, fs)

/-- `bytes.upper()`: uppercase the ASCII letters. -/
def bupper (l : List Nat) : List Nat :=
  l.map (fun b => if 97 ≤ b ∧ b ≤ 122 then b - 32 else b)

/-- Python `int(x)` on a command argument: ints pass through, floats
truncate, byte strings parse; anything else is a `TypeError` (modelled as
`none`). -/
def pyInt? : RVal → Option Int
  | .int n => some n
  | .float q => some (pyTruncQ q)
  | .bytes b => parseIntB b
  | _ => none

/-- Decode a byte list as a Lean string (ASCII). -/
def strOfBytes (l : List Nat) : String := String.mk (l.map Char.ofNat)

/-- An ASCII single-quote character, kept out of string literals. -/
def squote : String := String.mk [Char.ofNat 39]

/-- Python `f"{x}"` on the values a request can put in command position:
bytes format as their `repr` (modelled for printable ASCII without quotes or
backslashes), ints as decimal.  Containers and floats never reach the
unknown-command message in any claim; their formatting is a placeholder. -/
def pyStrOfRVal : RVal → String
  | .bytes b => "b" ++ squote ++ strOfBytes b ++ squote
  | .int i => toString i
  | .null => "None"
  | _ => "<obj>"

/-- The argument-count error Python raises when a command capability is
applied to the wrong number of arguments (its exact text is connection-level
detail outside the model). -/
def arityErr (fs : FS) (s : Server) : Ret × Server × FS :=
  (.err "TypeError: wrong number of arguments", s, fs)

/-- The lookup-and-apply step of `DBLiteServer.respond`: resolve the
(already uppercased) command token against `get_commands` and apply the
capability to the arguments.  Keys must be byte strings in the model (the
only key kind any claim or test exercises); other key types fall into the
arity/type error branch. -/
def dispatchTok (fs : FS) (s : Server) (ts : ℚ) (args : List RVal) : RVal → Ret × Server × FS
  | .bytes u =>
        if u = bytesOfAscii "SET" then
          match args with
          | [.bytes k, v] => runCmd fs s ts (.set k v)
          | _ => arityErr fs s
        else if u = bytesOfAscii "GET" then
          match args with
          | [.bytes k] => runCmd fs s ts (.get k)
          | _ => arityErr fs s
        else if u = bytesOfAscii "DELETE" then
          match args with
          | [.bytes k] => runCmd fs s ts (.delete k)
          | _ => arityErr fs s
        else if u = bytesOfAscii "EXISTS" then
          match args with
          | [.bytes k] => runCmd fs s ts (.exists' k)
          | _ => arityErr fs s
        else if u = bytesOfAscii "LPUSH" then
          match args with
          | .bytes k :: vs => runCmd fs s ts (.lpush k vs)
          | _ => arityErr fs s
        else if u = bytesOfAscii "LPOP" then
          match args with
          | [.bytes k] => runCmd fs s ts (.lpop k)
          | _ => arityErr fs s
        else if u = bytesOfAscii "HSET" then
          match args with
          | [.bytes k, f, v] => runCmd fs s ts (.hset k f v)
          | _ => arityErr fs s
        else if u = bytesOfAscii "HGET" then
          match args with
          | [.bytes k, f] => runCmd fs s ts (.hget k f)
          | _ => arityErr fs s
        else if u = bytesOfAscii "SADD" then
          match args with
          | .bytes k :: ms => runCmd fs s ts (.sadd k ms)
          | _ => arityErr fs s
        else if u = bytesOfAscii "SMEMBERS" then
          match args with
          | [.bytes k] => runCmd fs s ts (.smembers k)
          | _ => arityErr fs s
        else if u = bytesOfAscii "EXPIRE" then
          match args with
          | [.bytes k, n] =>
              match pyInt? n with
              | some secs => runCmd fs s ts (.expire k secs)
              | none => (.err "ValueError: invalid literal for int", s, fs)
          | _ => arityErr fs s
        else if u = bytesOfAscii "FLUSHALL" then
          match args with
          | [] => runCmd fs s ts .flushall
          | _ => arityErr fs s
        else if u = bytesOfAscii "SAVE" then
          match args with
          | [.bytes f] => runCmd fs s ts (.save f)
          | _ => arityErr fs s
        else if u = bytesOfAscii "RESTORE" then
          match args with
          | [.bytes f] => runCmd fs s ts (.restore f)
          | _ => arityErr fs s
        else if u = bytesOfAscii "INFO" then
          match args with
          | [] => runCmd fs s ts .info
          | _ => arityErr fs s
        else if u = bytesOfAscii "QUIT" then
          match args with
          | [] => runCmd fs s ts .quit
          | _ => arityErr fs s
        else if u = bytesOfAscii "SHUTDOWN" then
          match args with
          | [] => runCmd fs s ts .shutdown
          | _ => arityErr fs s
        else (.err ("Unknown command: " ++ pyStrOfRVal (.bytes u)), s, fs)
  | x => (.err ("Unknown command: " ++ pyStrOfRVal x), s, fs)

/-- `DBLiteServer.respond`: fail on an empty request, uppercase a
bytes/str command token, then resolve and apply it. -/
def respond (fs : FS) (s : Server) (ts : ℚ) (data : List RVal) : Ret × Server × FS :=
  match data with
  | [] => (.err "Empty request", s, fs)
  | d0 :: args =>
      dispatchTok fs s ts args
        (match d0 with
         | .bytes b => .bytes (bupper b)
         | x => x)

/-! ### Statement-level predicates -/

/-- No duplicates under wire-value equality (a Python `set` invariant). -/
def nodupB : List RVal → Bool
  | [] => true
  | v :: t => !(t.any (fun w => beqR v w)) && nodupB t

/-- No duplicate keys under wire-value equality (a Python `dict` invariant). -/
def nodupKeysB : List (RVal × RVal) → Bool
  | [] => true
  | kv :: t => !(t.any (fun p => beqR kv.1 p.1)) && nodupKeysB t

mutual

/-- The wire values whose Python counterparts survive the codec intact:
no float anywhere (the encoder truncates floats), error lines free of CR/LF
(they travel on a single CRLF-terminated line), dict keys and set elements
duplicate-free (as every Python dict/set is). -/
def wfR : RVal → Bool
  | .bytes _ => true
  | .int _ => true
  | .float _ => false
  | .null => true
  | .err m => m.all (fun b => decide (b ≠ 13) && decide (b ≠ 10))
  | .arr l => wfL l
  | .map p => nodupKeysB p && wfP p
  | .set l => nodupB l && wfL l

def wfL : List RVal → Bool
  | [] => true
  | v :: t => wfR v && wfL t

def wfP : List (RVal × RVal) → Bool
  | [] => true
  | kv :: t => wfR kv.1 && wfR kv.2 && wfP t

end

mutual

/-- Fuel sufficient for the decoder on an encoding of `v` (one unit per
nesting level). -/
def needR : RVal → Nat
  | .arr l => needL l + 1
  | .map p => needP p + 1
  | .set l => needL l + 1
  | _ => 1

def needL : List RVal → Nat
  | [] => 0
  | v :: t => max (needR v) (needL t)

def needP : List (RVal × RVal) → Nat
  | [] => 0
  | kv :: t => max (max (needR kv.1) (needR kv.2)) (needP t)

end

/-- The flat key/value alternation a mapping's pairs occupy on the wire. -/
def flattenPairs : List (RVal × RVal) → List RVal
  | [] => []
  | kv :: t => kv.1 :: kv.2 :: flattenPairs t

/-- The expected tag and target key of the six `@enforce_datatype`
commands. -/
def typedOf : Cmd → Option (Nat × List Nat)
  | .lpush k _ => some (QUEUE, k)
  | .lpop k => some (QUEUE, k)
  | .hset k _ _ => some (HASH, k)
  | .hget k _ => some (HASH, k)
  | .sadd k _ => some (SET, k)
  | .smembers k => some (SET, k)
  | _ => none

/-- The commands whose first action is the lazy sweep (`clean_expired`):
the reads, the six `@enforce_datatype` commands and INFO.  `SET` and
`EXPIRE` are not among them. -/
def doesSweep : Cmd → Bool
  | .get _ => true
  | .delete _ => true
  | .exists' _ => true
  | .lpush _ _ => true
  | .lpop _ => true
  | .hset _ _ _ => true
  | .hget _ _ => true
  | .sadd _ _ => true
  | .smembers _ => true
  | .info => true
  | _ => false

/-- The command tokens registered in `get_commands`. -/
def commandNames : List (List Nat) :=
  [bytesOfAscii "SET", bytesOfAscii "GET", bytesOfAscii "DELETE",
   bytesOfAscii "EXISTS", bytesOfAscii "LPUSH", bytesOfAscii "LPOP",
   bytesOfAscii "HSET", bytesOfAscii "HGET", bytesOfAscii "SADD",
   bytesOfAscii "SMEMBERS", bytesOfAscii "EXPIRE", bytesOfAscii "FLUSHALL",
   bytesOfAscii "SAVE", bytesOfAscii "RESTORE", bytesOfAscii "INFO",
   bytesOfAscii "QUIT", bytesOfAscii "SHUTDOWN"]

/-- The heap abstraction invariant: entries sorted by deadline (the
sorted-sequence view of a `heapq` heap). -/
def heapSorted (h : List (ℚ × List Nat)) : Prop :=
  List.Pairwise (fun a b => a.1 ≤ b.1) h

/-- Every authoritative deadline has a heap entry backing it (maintained by
`expire`/`restore_from_disk`, which always push what they record). -/
def mapInHeap (s : Server) : Bool :=
  s.expiry_map.all (fun p => decide ((p.2, p.1) ∈ s.expiry))

/-! ## Theorems -/

/-! ### `beqR` decides equality -/

theorem beq_iff_aux (n : Nat) :
    (∀ a : RVal, sizeOf a ≤ n → ∀ b, beqR a b = true ↔ a = b) ∧
    (∀ l : List RVal, sizeOf l ≤ n → ∀ m, beqL l m = true ↔ l = m) ∧
    (∀ p : List (RVal × RVal), sizeOf p ≤ n → ∀ q, beqP p q = true ↔ p = q) := by
  induction n using Nat.strong_induction_on with
  | _ n ih =>
    refine ⟨?_, ?_, ?_⟩
    · intro a ha b
      cases a <;> cases b <;> simp only [beqR, decide_eq_true_eq] <;> try simp
      case arr.arr l m =>
        have hl : sizeOf l < n := by simp at ha; omega
        exact (ih _ hl).2.1 l le_rfl m
      case map.map p q =>
        have hp : sizeOf p < n := by simp at ha; omega
        exact (ih _ hp).2.2 p le_rfl q
      case set.set l m =>
        have hl : sizeOf l < n := by simp at ha; omega
        exact (ih _ hl).2.1 l le_rfl m
    · intro l hl m
      cases l <;> cases m <;> simp only [beqL] <;> try simp
      case cons.cons a as b bs =>
        have h1 : sizeOf a < n := by simp at hl; omega
        have h2 : sizeOf as < n := by simp at hl; omega
        rw [(ih _ h1).1 a le_rfl b, (ih _ h2).2.1 as le_rfl bs]
    · intro p hp q
      cases p with
      | nil => cases q <;> simp [beqP]
      | cons a as =>
        cases q with
        | nil => simp [beqP]
        | cons b bs =>
          obtain ⟨a1, a2⟩ := a
          obtain ⟨b1, b2⟩ := b
          have h1 : sizeOf a1 < n := by simp at hp; omega
          have h2 : sizeOf a2 < n := by simp at hp; omega
          have h3 : sizeOf as < n := by simp at hp; omega
          simp only [beqP, Bool.and_eq_true, (ih _ h1).1 a1 le_rfl b1,
            (ih _ h2).1 a2 le_rfl b2, (ih _ h3).2.2 as le_rfl bs]
          simp [and_assoc]

/-- `beqR` decides propositional equality of wire values. -/
theorem beqR_iff_eq (a b : RVal) : beqR a b = true ↔ a = b :=
  (beq_iff_aux (sizeOf a)).1 a le_rfl b

/-! ### Line reading and decimal rendering -/

theorem readLine_no_lf (l : List Nat) (hl : ∀ b ∈ l, b ≠ 10) (rest : List Nat) :
    readLine (l ++ 10 :: rest) = (l ++ [10], rest) := by
  induction l with
  | nil => simp [readLine]
  | cons b t ih =>
    have hb : b ≠ 10 := hl b (by simp)
    have ih2 := ih (fun x hx => hl x (by simp [hx]))
    simp [readLine, hb, ih2]

theorem dropWhile_no_hit (p : Nat → Bool) (l : List Nat) (h : ∀ b ∈ l, p b = false) :
    l.dropWhile p = l := by
  cases l with
  | nil => rfl
  | cons a t => rw [List.dropWhile_cons, h a (by simp)]; simp

theorem rstripCRLF_crlf (l : List Nat) (hl : ∀ b ∈ l, b ≠ 13 ∧ b ≠ 10) :
    rstripCRLF (l ++ [13, 10]) = l := by
  unfold rstripCRLF
  have h2 : (l ++ [13, 10]).reverse = 10 :: 13 :: l.reverse := by simp
  rw [h2]
  rw [show List.dropWhile (fun b => decide (b = 13 ∨ b = 10)) (10 :: 13 :: l.reverse) =
      List.dropWhile (fun b => decide (b = 13 ∨ b = 10)) l.reverse by
    simp [List.dropWhile_cons]]
  rw [dropWhile_no_hit _ _ (fun b hb => by
    have := hl b (List.mem_reverse.mp hb)
    simp [this.1, this.2])]
  simp

theorem readLineStrip_emit (l : List Nat) (hl : ∀ b ∈ l, b ≠ 13 ∧ b ≠ 10) (rest : List Nat) :
    readLineStrip (l ++ 13 :: 10 :: rest) = (l, rest) := by
  have h0 : l ++ 13 :: 10 :: rest = (l ++ [13]) ++ 10 :: rest := by simp
  have h1 : readLine ((l ++ [13]) ++ 10 :: rest) = ((l ++ [13]) ++ [10], rest) :=
    readLine_no_lf _ (by
      intro b hb
      rcases List.mem_append.mp hb with h | h
      · exact (hl b h).2
      · simp at h; omega) rest
  have h2 : (l ++ [13]) ++ [10] = l ++ [13, 10] := by simp
  simp only [readLineStrip, h0, h1, h2, rstripCRLF_crlf l hl]

theorem natToDigits_mem {n b : Nat} (hb : b ∈ natToDigits n) : 48 ≤ b ∧ b ≤ 57 := by
  unfold natToDigits at hb
  simp only [List.mem_reverse, List.mem_map] at hb
  obtain ⟨d, hd, rfl⟩ := hb
  have := Nat.digits_lt_base (by norm_num) hd
  omega

theorem intToBytes_mem {i : Int} {b : Nat} (hb : b ∈ intToBytes i) :
    b = 45 ∨ (48 ≤ b ∧ b ≤ 57) := by
  cases i with
  | ofNat n =>
    rw [show intToBytes (Int.ofNat n) = if n = 0 then [48] else natToDigits n from rfl] at hb
    by_cases h : n = 0
    · subst h; simp at hb; omega
    · rw [if_neg h] at hb; exact Or.inr (natToDigits_mem hb)
  | negSucc m =>
    rw [show intToBytes (Int.negSucc m) = 45 :: natToDigits (m + 1) from rfl] at hb
    rcases List.mem_cons.mp hb with rfl | hb
    · exact Or.inl rfl
    · exact Or.inr (natToDigits_mem hb)

theorem intToBytes_clean (i : Int) : ∀ b ∈ intToBytes i, b ≠ 13 ∧ b ≠ 10 := by
  intro b hb
  rcases intToBytes_mem hb with h | h <;> omega

theorem intToBytes_not_dot (i : Int) : ¬ (46 ∈ intToBytes i) := by
  intro h
  rcases intToBytes_mem h with h | h <;> omega

theorem foldl_digits (n : Nat) :
    (natToDigits n).foldl (fun a b => a * 10 + (b - 48)) 0 = n := by
  unfold natToDigits
  rw [List.foldl_reverse, List.foldr_map]
  have key : ∀ ds : List Nat,
      List.foldr (fun x y => y * 10 + (x + 48 - 48)) 0 ds = Nat.ofDigits 10 ds := by
    intro ds
    induction ds with
    | nil => simp [Nat.ofDigits]
    | cons d t ih =>
      simp only [List.foldr_cons, ih, Nat.ofDigits_cons]
      omega
  rw [key, Nat.ofDigits_digits]

theorem parseNatB_natToDigits {n : Nat} (hn : n ≠ 0) : parseNatB (natToDigits n) = some n := by
  unfold parseNatB
  rw [if_pos, foldl_digits]
  constructor
  · simp [natToDigits, Nat.digits_ne_nil_iff_ne_zero.mpr hn]
  · rw [List.all_eq_true]
    intro b hb
    have := natToDigits_mem hb
    simp [isDigitByte]; omega

theorem parseIntB_intToBytes (i : Int) : parseIntB (intToBytes i) = some i := by
  cases i with
  | ofNat n =>
    by_cases h : n = 0
    · subst h; rfl
    · have hne : natToDigits n ≠ [] := by
        simp [natToDigits, Nat.digits_ne_nil_iff_ne_zero.mpr h]
      obtain ⟨c, t, hct⟩ := List.exists_cons_of_ne_nil hne
      have hc : 48 ≤ c := (natToDigits_mem (hct ▸ List.mem_cons_self c t)).1
      rw [show intToBytes (Int.ofNat n) = natToDigits n by simp [intToBytes, h], hct,
        parseIntB, if_neg (by omega), ← hct, parseNatB_natToDigits h]
      rfl
  | negSucc m =>
    rw [show intToBytes (Int.negSucc m) = 45 :: natToDigits (m + 1) from rfl,
      parseIntB, if_pos rfl, parseNatB_natToDigits (Nat.succ_ne_zero m)]
    simp [Int.negSucc_eq]

/-! ### Python dict/set reconstruction is the identity on duplicate-free input -/

theorem pySet_go (l acc : List RVal)
    (hd : ∀ v ∈ l, v ∉ acc) (hn : nodupB l = true) :
    l.foldl (fun acc v => if acc.any (beqR v) then acc else acc ++ [v]) acc
      = acc ++ l := by
  induction l generalizing acc with
  | nil => simp
  | cons v t ih =>
    simp only [nodupB, Bool.and_eq_true, Bool.not_eq_true'] at hn
    have hmem : acc.any (beqR v) = false := by
      rw [List.any_eq_false]
      intro w hw
      rw [beqR_iff_eq]
      intro hwv
      exact hd v (by simp) (hwv ▸ hw)
    simp only [List.foldl_cons, hmem, Bool.false_eq_true, if_false]
    rw [ih (acc ++ [v])]
    · simp
    · intro w hw
      simp only [List.mem_append, List.mem_singleton]
      rintro (h | rfl)
      · exact hd w (by simp [hw]) h
      · have := List.any_eq_false.mp hn.1 w hw
        rw [beqR_iff_eq] at this
        exact this rfl
    · exact hn.2

theorem pySetOfList_id {l : List RVal} (hn : nodupB l = true) : pySetOfList l = l := by
  unfold pySetOfList
  rw [pySet_go l [] (by simp) hn]
  simp

theorem pyDict_go (p acc : List (RVal × RVal))
    (hd : ∀ kv ∈ p, ∀ q ∈ acc, q.1 ≠ kv.1) (hn : nodupKeysB p = true) :
    p.foldl (fun acc kv => rDictSet acc kv.1 kv.2) acc = acc ++ p := by
  induction p generalizing acc with
  | nil => simp
  | cons kv t ih =>
    simp only [nodupKeysB, Bool.and_eq_true, Bool.not_eq_true'] at hn
    have hmem : acc.any (fun q => beqR q.1 kv.1) = false := by
      rw [List.any_eq_false]
      intro q hq
      rw [beqR_iff_eq]
      exact hd kv (by simp) q hq
    have hstep : rDictSet acc kv.1 kv.2 = acc ++ [(kv.1, kv.2)] := by
      unfold rDictSet
      rw [hmem]
      simp
    simp only [List.foldl_cons, hstep]
    rw [ih (acc ++ [(kv.1, kv.2)])]
    · simp
    · intro kv2 h2
      intro q hq
      rcases List.mem_append.mp hq with h | h
      · exact hd kv2 (by simp [h2]) q h
      · simp at h
        subst h
        have := List.any_eq_false.mp hn.1 kv2 h2
        rw [beqR_iff_eq] at this
        exact this
    · exact hn.2

theorem pyDictOfPairs_id {p : List (RVal × RVal)} (hn : nodupKeysB p = true) :
    pyDictOfPairs p = p := by
  unfold pyDictOfPairs
  rw [pyDict_go p [] (by simp) hn]
  simp

theorem pairUp_flatten (p : List (RVal × RVal)) : pairUp (flattenPairs p) = p := by
  induction p with
  | nil => rfl
  | cons kv t ih => simp [flattenPairs, pairUp, ih]

/-! ### Decode after encode -/

theorem needR_pos (v : RVal) : 1 ≤ needR v := by
  cases v <;> simp [needR]

theorem codec_aux (n : Nat) :
    (∀ v : RVal, sizeOf v ≤ n → wfR v = true → ∀ fuel, needR v ≤ fuel → ∀ rest,
        handle_request fuel (pwrite v ++ rest) = .ok (v, rest)) ∧
    (∀ l : List RVal, sizeOf l ≤ n → wfL l = true → ∀ fuel, needL l ≤ fuel → ∀ rest,
        handleMany fuel l.length (pwriteList l ++ rest) = .ok (l, rest)) ∧
    (∀ p : List (RVal × RVal), sizeOf p ≤ n → wfP p = true → ∀ fuel, needP p ≤ fuel → ∀ rest,
        handleMany fuel (2 * p.length) (pwritePairs p ++ rest) = .ok (flattenPairs p, rest)) := by
  induction n using Nat.strong_induction_on with
  | _ n ih =>
    refine ⟨?_, ?_, ?_⟩
    · intro v hv hwf fuel hfuel rest
      obtain ⟨f, rfl⟩ : ∃ f, fuel = f + 1 :=
        ⟨fuel - 1, by have := needR_pos v; omega⟩
      cases v with
      | bytes b =>
        have harr : pwrite (.bytes b) ++ rest
            = 36 :: (intToBytes (b.length : Int) ++ 13 :: 10 ::
                ((b ++ [13, 10]) ++ rest)) := by
          simp [pwrite]
        rw [harr]
        simp only [handle_request]
        rw [readLineStrip_emit _ (intToBytes_clean _) _, parseIntB_intToBytes]
        simp only [Option.some.injEq]
        rw [if_neg (by omega : ¬((b.length : Int) = -1))]
        have ht : ((b.length : Int) + 2).toNat = b.length + 2 := by omega
        rw [ht, List.take_left' (by simp), List.drop_left' (by simp),
          List.take_left' (by simp)]
      | int i =>
        have harr : pwrite (.int i) ++ rest
            = 58 :: (intToBytes i ++ 13 :: 10 :: rest) := by
          simp [pwrite]
        rw [harr]
        simp only [handle_request]
        rw [readLineStrip_emit _ (intToBytes_clean _) _]
        rw [if_neg (intToBytes_not_dot i), parseIntB_intToBytes]
      | float q => simp [wfR] at hwf
      | null =>
        have harr : pwrite .null ++ rest = 36 :: 45 :: 49 :: 13 :: 10 :: rest := by
          simp [pwrite]
        rw [harr]
        simp [handle_request, readLineStrip, readLine, rstripCRLF, parseIntB,
          parseNatB, isDigitByte]
      | err m =>
        have hm : ∀ b ∈ m, b ≠ 13 ∧ b ≠ 10 := by
          simp only [wfR, List.all_eq_true, Bool.and_eq_true, decide_eq_true_eq] at hwf
          exact hwf
        have harr : pwrite (.err m) ++ rest = 45 :: (m ++ 13 :: 10 :: rest) := by
          simp [pwrite]
        rw [harr]
        simp only [handle_request]
        rw [readLineStrip_emit m hm rest]
      | arr l =>
        have hl : sizeOf l < n := by simp at hv; omega
        have hwl : wfL l = true := by simpa [wfR] using hwf
        have hfl : needL l ≤ f := by simp [needR] at hfuel; omega
        have harr : pwrite (.arr l) ++ rest
            = 42 :: (intToBytes (l.length : Int) ++ 13 :: 10 :: (pwriteList l ++ rest)) := by
          simp [pwrite]
        rw [harr]
        simp only [handle_request]
        rw [readLineStrip_emit _ (intToBytes_clean _) _, parseIntB_intToBytes]
        have ht : ((l.length : Int)).toNat = l.length := by omega
        simp only [ht]
        rw [(ih _ hl).2.1 l le_rfl hwl f hfl rest]
      | map p =>
        have hp : sizeOf p < n := by simp at hv; omega
        have hsplit : nodupKeysB p = true ∧ wfP p = true := by
          simpa [wfR, Bool.and_eq_true] using hwf
        have hfp : needP p ≤ f := by simp [needR] at hfuel; omega
        have harr : pwrite (.map p) ++ rest
            = 37 :: (intToBytes (p.length : Int) ++ 13 :: 10 :: (pwritePairs p ++ rest)) := by
          simp [pwrite]
        rw [harr]
        simp only [handle_request]
        rw [readLineStrip_emit _ (intToBytes_clean _) _, parseIntB_intToBytes]
        have ht : ((p.length : Int) * 2).toNat = 2 * p.length := by omega
        simp only [ht]
        rw [(ih _ hp).2.2 p le_rfl hsplit.2 f hfp rest]
        simp only [pairUp_flatten, pyDictOfPairs_id hsplit.1]
      | set l =>
        have hl : sizeOf l < n := by simp at hv; omega
        have hsplit : nodupB l = true ∧ wfL l = true := by
          simpa [wfR, Bool.and_eq_true] using hwf
        have hfl : needL l ≤ f := by simp [needR] at hfuel; omega
        have harr : pwrite (.set l) ++ rest
            = 38 :: (intToBytes (l.length : Int) ++ 13 :: 10 :: (pwriteList l ++ rest)) := by
          simp [pwrite]
        rw [harr]
        simp only [handle_request]
        rw [readLineStrip_emit _ (intToBytes_clean _) _, parseIntB_intToBytes]
        have ht : ((l.length : Int)).toNat = l.length := by omega
        simp only [ht]
        rw [(ih _ hl).2.1 l le_rfl hsplit.2 f hfl rest]
        simp only [pySetOfList_id hsplit.1]
    · intro l hl hwf fuel hfuel rest
      cases l with
      | nil => simp [pwriteList, handleMany]
      | cons v t =>
        have h1 : sizeOf v < n := by simp at hl; omega
        have h2 : sizeOf t < n := by simp at hl; omega
        have hw : wfR v = true ∧ wfL t = true := by
          simpa [wfL, Bool.and_eq_true] using hwf
        have hf1 : needR v ≤ fuel := by simp [needL] at hfuel; omega
        have hf2 : needL t ≤ fuel := by simp [needL] at hfuel; omega
        have harr : pwriteList (v :: t) ++ rest = pwrite v ++ (pwriteList t ++ rest) := by
          simp [pwriteList]
        rw [harr]
        show handleMany fuel (t.length + 1) _ = _
        simp only [handleMany]
        simp only [(ih _ h1).1 v le_rfl hw.1 fuel hf1,
          (ih _ h2).2.1 t le_rfl hw.2 fuel hf2]
    · intro p hp hwf fuel hfuel rest
      cases p with
      | nil => simp [pwritePairs, flattenPairs, handleMany]
      | cons kv t =>
        have h1 : sizeOf kv.1 < n := by
          obtain ⟨a, b⟩ := kv; simp at hp ⊢; omega
        have h2 : sizeOf kv.2 < n := by
          obtain ⟨a, b⟩ := kv; simp at hp ⊢; omega
        have h3 : sizeOf t < n := by simp at hp; omega
        have hw : wfR kv.1 = true ∧ wfR kv.2 = true ∧ wfP t = true := by
          simpa [wfP, Bool.and_eq_true, and_assoc] using hwf
        have hf1 : needR kv.1 ≤ fuel := by simp [needP] at hfuel; omega
        have hf2 : needR kv.2 ≤ fuel := by simp [needP] at hfuel; omega
        have hf3 : needP t ≤ fuel := by simp [needP] at hfuel; omega
        have harr : pwritePairs (kv :: t) ++ rest
            = pwrite kv.1 ++ (pwrite kv.2 ++ (pwritePairs t ++ rest)) := by
          simp [pwritePairs]
        rw [harr]
        have hcount : 2 * (kv :: t).length = (2 * t.length + 1) + 1 := by
          simp [List.length_cons]; omega
        rw [hcount]
        simp only [handleMany]
        simp only [(ih _ h1).1 kv.1 le_rfl hw.1 fuel hf1,
          (ih _ h2).1 kv.2 le_rfl hw.2.1 fuel hf2,
          (ih _ h3).2.2 t le_rfl hw.2.2 fuel hf3]
        simp [flattenPairs]

/-- **C1** (counterexample).  The claim fails for floats: the encoder writes
floats with `b':%d'`, truncating toward zero, so `2.5` goes out as `:2` and
decodes to the integer `2`, not `2.5`. -/
theorem C1_float_counterexample :
    handle_request 1 (pwrite (.float (5 / 2)) ++ []) = .ok (.int 2, []) ∧
    RVal.int 2 ≠ RVal.float (5 / 2) := by
  constructor
  · have htr : pyTruncQ (5 / 2 : ℚ) = 2 := by
      unfold pyTruncQ
      norm_num
      decide
    have hb : pwrite (.float (5 / 2)) = [58, 50, 13, 10] := by
      simp only [pwrite, htr]
      rw [show (2 : Int) = Int.ofNat 2 from rfl]
      norm_num [intToBytes, natToDigits]
    rw [hb]
    simp [handle_request, readLineStrip, readLine, rstripCRLF, parseIntB,
      parseNatB, isDigitByte]
  · intro h
    exact RVal.noConfusion h

/-- **C1** (amended): decoding an encoding returns the value and leaves the
following bytes untouched, for every value of the wire algebra except
floats — with error lines CR/LF-free and mappings/sets duplicate-free, as
every Python value of those kinds is.  Raw bytes of `$`-framed payloads are
preserved exactly (the `bytes` case of the statement). -/
theorem C1_roundtrip_amended (v : RVal) (hwf : wfR v = true) (fuel : Nat)
    (hfuel : needR v ≤ fuel) (rest : List Nat) :
    handle_request fuel (pwrite v ++ rest) = .ok (v, rest) :=
  (codec_aux (sizeOf v)).1 v le_rfl hwf fuel hfuel rest

theorem C1_roundtrip_witness :
    handle_request 3
        (pwrite (.arr [.bytes [128], .int (-3), .null, .set [.bytes []],
          .map [(.bytes [107], .err [87])]]) ++ [99]) =
      .ok (.arr [.bytes [128], .int (-3), .null, .set [.bytes []],
          .map [(.bytes [107], .err [87])]], [99]) := by
  apply C1_roundtrip_amended
  · simp [wfR, wfL, wfP, nodupB, nodupKeysB]
  · simp [needR, needL, needP]

/-- **C7** (counterexample).  A bulk-string frame whose body is shorter than
its declared length is not rejected: `$5\r\nab\r\n` decodes successfully to
the bytes `ab` (`read(length + 2)[:-2]` never validates), where the claim
demands a `MALFORMED` failure. -/
theorem C7_truncated_bulk_counterexample :
    handle_request 1 [36, 53, 13, 10, 97, 98, 13, 10] = .ok (.bytes [97, 98], []) := by
  simp [handle_request, readLineStrip, readLine, rstripCRLF, parseIntB,
    parseNatB, isDigitByte]

/-- **C7** (amended): the decoder fails with `EOF` when the stream is
exhausted at the start of a frame — top-level or nested (second conjunct) —
there is no `MALFORMED` error: a short or unterminated bulk body is silently
truncated to the available bytes (third conjunct), and a non-numeric
length line surfaces as the `ValueError` escaping `int()` (fourth
conjunct). -/
theorem C7_decoder_errors_amended :
    (∀ fuel, handle_request (fuel + 1) [] = .error .eof) ∧
    handle_request 2 [42, 49, 13, 10] = .error .eof ∧
    handle_request 1 [36, 51, 13, 10, 97, 13, 10] = .ok (.bytes [97], []) ∧
    handle_request 1 [36, 120, 121, 13, 10] = .error .valueError := by
  refine ⟨fun fuel => by simp [handle_request], ?_, ?_, ?_⟩ <;>
    simp [handle_request, handleMany, readLineStrip, readLine, rstripCRLF,
      parseIntB, parseNatB, isDigitByte]

/-! ### Association-list lemmas -/

section AListLemmas

variable {K V : Type} [DecidableEq K]

theorem aget?_aset_self (m : List (K × V)) (k : K) (v : V) :
    aget? (aset m k v) k = some v := by
  induction m with
  | nil => simp [aset, aget?]
  | cons p t ih =>
    by_cases h : p.1 = k
    · simp [aset, h, aget?]
    · simp [aset, h, aget?, ih]

theorem aget?_aset_ne (m : List (K × V)) {k k' : K} (v : V) (h : k' ≠ k) :
    aget? (aset m k v) k' = aget? m k' := by
  induction m with
  | nil => simp [aset, aget?, Ne.symm h]
  | cons p t ih =>
    by_cases hp : p.1 = k
    · have hpk' : p.1 ≠ k' := by rw [hp]; exact Ne.symm h
      rw [show aset (p :: t) k v = (k, v) :: t by simp [aset, hp]]
      simp [aget?, Ne.symm h, hpk']
    · rw [show aset (p :: t) k v = p :: aset t k v by simp [aset, hp]]
      by_cases hp' : p.1 = k'
      · simp [aget?, hp']
      · simp [aget?, hp', ih]

theorem aget?_adel_self (m : List (K × V)) (k : K) : aget? (adel m k) k = none := by
  induction m with
  | nil => simp [adel, aget?]
  | cons p t ih =>
    by_cases h : p.1 = k
    · rw [show adel (p :: t) k = adel t k by simp [adel, List.filter_cons, h]]
      exact ih
    · rw [show adel (p :: t) k = p :: adel t k by simp [adel, List.filter_cons, h]]
      simpa [aget?, h] using ih

theorem aget?_adel_ne (m : List (K × V)) {k k' : K} (h : k' ≠ k) :
    aget? (adel m k) k' = aget? m k' := by
  induction m with
  | nil => simp [adel]
  | cons p t ih =>
    by_cases hp : p.1 = k
    · have hpk' : p.1 ≠ k' := by rw [hp]; exact Ne.symm h
      rw [show adel (p :: t) k = adel t k by simp [adel, List.filter_cons, hp]]
      rw [ih, show aget? (p :: t) k' = aget? t k' by simp [aget?, hpk']]
    · rw [show adel (p :: t) k = p :: adel t k by simp [adel, List.filter_cons, hp]]
      by_cases hp' : p.1 = k'
      · simp [aget?, hp']
      · simp [aget?, hp', ih]

theorem aget?_mem {m : List (K × V)} {k : K} {v : V} (h : aget? m k = some v) :
    (k, v) ∈ m := by
  induction m with
  | nil => simp [aget?] at h
  | cons p t ih =>
    by_cases hp : p.1 = k
    · simp only [aget?, if_pos hp, Option.some.injEq] at h
      exact List.mem_cons.mpr (Or.inl (Prod.ext hp.symm h.symm))
    · simp only [aget?, if_neg hp] at h
      exact List.mem_cons_of_mem _ (ih h)

theorem acontains_iff {m : List (K × V)} {k : K} :
    acontains m k = true ↔ ∃ v, aget? m k = some v := by
  unfold acontains
  cases h : aget? m k <;> simp [h]

end AListLemmas

/-! ### Sweep-loop lemmas -/

/-- The sweep only deletes expiry-map entries; surviving entries keep their
original deadline. -/
theorem cleanLoop_map_sub {h : List (ℚ × List Nat)} {m : List (List Nat × ℚ)}
    {kv : List (List Nat × Value)} {ts : ℚ} {k : List Nat} {d : ℚ}
    (hg : aget? (cleanLoop h m kv ts).2.1 k = some d) : aget? m k = some d := by
  induction h generalizing m kv with
  | nil => simpa [cleanLoop] using hg
  | cons x t ih =>
    obtain ⟨eta, key⟩ := x
    by_cases h1 : eta > ts
    · simpa [cleanLoop, h1] using hg
    · by_cases h2 : aget? m key = some eta
      · simp only [cleanLoop, if_neg h1, if_pos h2] at hg
        have := ih hg
        by_cases hk : k = key
        · rw [hk, aget?_adel_self] at this
          exact absurd this (by simp)
        · rwa [aget?_adel_ne _ hk] at this
      · simp only [cleanLoop, if_neg h1, if_neg h2] at hg
        exact ih hg

/-- The sweep only deletes key-space entries; surviving entries keep their
original value. -/
theorem cleanLoop_kv_sub {h : List (ℚ × List Nat)} {m : List (List Nat × ℚ)}
    {kv : List (List Nat × Value)} {ts : ℚ} {k : List Nat} {v : Value}
    (hg : aget? (cleanLoop h m kv ts).2.2.1 k = some v) : aget? kv k = some v := by
  induction h generalizing m kv with
  | nil => simpa [cleanLoop] using hg
  | cons x t ih =>
    obtain ⟨eta, key⟩ := x
    by_cases h1 : eta > ts
    · simpa [cleanLoop, h1] using hg
    · by_cases h2 : aget? m key = some eta
      · simp only [cleanLoop, if_neg h1, if_pos h2] at hg
        have := ih hg
        by_cases hk : k = key
        · rw [hk, aget?_adel_self] at this
          exact absurd this (by simp)
        · rwa [aget?_adel_ne _ hk] at this
      · simp only [cleanLoop, if_neg h1, if_neg h2] at hg
        exact ih hg

/-- A key the sweep drops from the key-space had an authoritative deadline
`≤ ts`. -/
theorem cleanLoop_kv_drop {h : List (ℚ × List Nat)} {m : List (List Nat × ℚ)}
    {kv : List (List Nat × Value)} {ts : ℚ} {k : List Nat}
    (hin : acontains kv k = true)
    (hout : acontains (cleanLoop h m kv ts).2.2.1 k = false) :
    ∃ d, aget? m k = some d ∧ d ≤ ts := by
  induction h generalizing m kv with
  | nil => simp [cleanLoop] at hout; rw [hout] at hin; exact absurd hin (by simp)
  | cons x t ih =>
    obtain ⟨eta, key⟩ := x
    by_cases h1 : eta > ts
    · simp only [cleanLoop, if_pos h1] at hout
      rw [hout] at hin
      exact absurd hin (by simp)
    · by_cases h2 : aget? m key = some eta
      · simp only [cleanLoop, if_neg h1, if_pos h2] at hout
        by_cases hk : k = key
        · exact ⟨eta, hk ▸ h2, by linarith⟩
        · have hin2 : acontains (adel kv key) k = true := by
            unfold acontains at hin ⊢
            rwa [aget?_adel_ne _ hk]
          obtain ⟨d, hd, hdt⟩ := ih hin2 hout
          rw [aget?_adel_ne _ hk] at hd
          exact ⟨d, hd, hdt⟩
      · simp only [cleanLoop, if_neg h1, if_neg h2] at hout
        exact ih hin hout

/-- Once absent from the key-space, a key stays absent through the sweep. -/
theorem cleanLoop_kv_absent {h : List (ℚ × List Nat)} {m : List (List Nat × ℚ)}
    {kv : List (List Nat × Value)} {ts : ℚ} {k : List Nat}
    (ha : acontains kv k = false) :
    acontains (cleanLoop h m kv ts).2.2.1 k = false := by
  induction h generalizing m kv with
  | nil => simpa [cleanLoop]
  | cons x t ih =>
    obtain ⟨eta, key⟩ := x
    by_cases h1 : eta > ts
    · simpa [cleanLoop, h1]
    · by_cases h2 : aget? m key = some eta
      · simp only [cleanLoop, if_neg h1, if_pos h2]
        apply ih
        by_cases hk : k = key
        · unfold acontains
          rw [hk, aget?_adel_self]
          rfl
        · unfold acontains at ha ⊢
          rwa [aget?_adel_ne _ hk]
      · simp only [cleanLoop, if_neg h1, if_neg h2]
        exact ih ha

/-- Once absent from the expiry map, a key stays absent through the sweep. -/
theorem cleanLoop_map_absent {h : List (ℚ × List Nat)} {m : List (List Nat × ℚ)}
    {kv : List (List Nat × Value)} {ts : ℚ} {k : List Nat}
    (ha : aget? m k = none) :
    aget? (cleanLoop h m kv ts).2.1 k = none := by
  cases hg : aget? (cleanLoop h m kv ts).2.1 k with
  | none => rfl
  | some d => rw [cleanLoop_map_sub hg] at ha; exact absurd ha (by simp)

/-- On a deadline-sorted heap, a key whose authoritative deadline is `≤ ts`
and has a backing heap entry is fully dropped by the sweep: gone from the
map and from the key-space. -/
theorem cleanLoop_expired_gone {h : List (ℚ × List Nat)} {m : List (List Nat × ℚ)}
    (kv : List (List Nat × Value)) {ts : ℚ} {k : List Nat} {d : ℚ}
    (hs : heapSorted h) (hh : (d, k) ∈ h) (hm : aget? m k = some d) (hd : d ≤ ts) :
    aget? (cleanLoop h m kv ts).2.1 k = none ∧
    acontains (cleanLoop h m kv ts).2.2.1 k = false := by
  induction h generalizing m kv with
  | nil => simp at hh
  | cons x t ih =>
    obtain ⟨eta, key⟩ := x
    have hs' : heapSorted t := (List.pairwise_cons.mp hs).2
    by_cases h1 : eta > ts
    · exfalso
      rcases List.mem_cons.mp hh with hx | hx
      · have hde : d = eta := congrArg Prod.fst hx
        linarith
      · have := (List.pairwise_cons.mp hs).1 (d, k) hx
        simp only at this
        linarith
    · by_cases h2 : aget? m key = some eta
      · simp only [cleanLoop, if_neg h1, if_pos h2]
        by_cases hk : k = key
        · constructor
          · apply cleanLoop_map_absent
            rw [hk, aget?_adel_self]
          · apply cleanLoop_kv_absent
            unfold acontains
            rw [hk, aget?_adel_self]
            rfl
        · rcases List.mem_cons.mp hh with hx | hx
          · exact absurd (congrArg Prod.snd hx) hk
          · exact ih (adel kv key) hs' hx (by rwa [aget?_adel_ne _ hk])
      · simp only [cleanLoop, if_neg h1, if_neg h2]
        rcases List.mem_cons.mp hh with hx | hx
        · exfalso
          have h_eta : d = eta := congrArg Prod.fst hx
          have h_key : k = key := congrArg Prod.snd hx
          rw [← h_key, ← h_eta] at h2
          exact h2 hm
        · exact ih kv hs' hx hm

/-- After the sweep on a sorted heap backed by the map, every surviving
authoritative deadline is strictly in the future. -/
theorem cleanLoop_map_post {h : List (ℚ × List Nat)} {m : List (List Nat × ℚ)}
    {kv : List (List Nat × Value)} {ts : ℚ} {k : List Nat} {d : ℚ}
    (hs : heapSorted h) (hb : ∀ k' d', aget? m k' = some d' → (d', k') ∈ h)
    (hg : aget? (cleanLoop h m kv ts).2.1 k = some d) : ts < d := by
  by_contra hc
  push_neg at hc
  have hm : aget? m k = some d := cleanLoop_map_sub hg
  have := (cleanLoop_expired_gone kv hs (hb k d hm) hm hc).1
  rw [this] at hg
  exact Option.noConfusion hg

/-- The heap left by the sweep is empty or headed by a strictly-future
deadline. -/
theorem cleanLoop_result_head (h : List (ℚ × List Nat)) (m : List (List Nat × ℚ))
    (kv : List (List Nat × Value)) (ts : ℚ) :
    (cleanLoop h m kv ts).1 = [] ∨
    ∃ e key t, (cleanLoop h m kv ts).1 = (e, key) :: t ∧ ts < e := by
  induction h generalizing m kv with
  | nil => left; simp [cleanLoop]
  | cons x t ih =>
    obtain ⟨eta, key⟩ := x
    by_cases h1 : eta > ts
    · right
      exact ⟨eta, key, t, by simp [cleanLoop, h1], h1⟩
    · by_cases h2 : aget? m key = some eta
      · simpa only [cleanLoop, if_neg h1, if_pos h2] using ih (adel m key) (adel kv key)
      · simpa only [cleanLoop, if_neg h1, if_neg h2] using ih m kv

/-- Sweeping a swept state is a no-op (with zero deletions). -/
theorem cleanLoop_idem (h : List (ℚ × List Nat)) (m m' : List (List Nat × ℚ))
    (kv kv' : List (List Nat × Value)) (ts : ℚ) :
    cleanLoop (cleanLoop h m kv ts).1 m' kv' ts = ((cleanLoop h m kv ts).1, m', kv', 0) := by
  rcases cleanLoop_result_head h m kv ts with he | ⟨e, key, t, heq, hgt⟩
  · rw [he]; rfl
  · rw [heq]
    simp [cleanLoop, hgt]

/-! ### Server-level sweep consequences -/

theorem clean_kv_eq (s : Server) (ts : ℚ) :
    ((clean_expired s ts).1).kv = (cleanLoop s.expiry s.expiry_map s.kv ts).2.2.1 := rfl

theorem clean_map_eq (s : Server) (ts : ℚ) :
    ((clean_expired s ts).1).expiry_map = (cleanLoop s.expiry s.expiry_map s.kv ts).2.1 := rfl

theorem clean_kv_sub {s : Server} {ts : ℚ} {k : List Nat} {v : Value}
    (h : aget? ((clean_expired s ts).1).kv k = some v) : aget? s.kv k = some v :=
  cleanLoop_kv_sub (by rwa [clean_kv_eq] at h)

theorem clean_map_sub {s : Server} {ts : ℚ} {k : List Nat} {d : ℚ}
    (h : aget? ((clean_expired s ts).1).expiry_map k = some d) :
    aget? s.expiry_map k = some d :=
  cleanLoop_map_sub (by rwa [clean_map_eq] at h)

theorem clean_kv_drop {s : Server} {ts : ℚ} {k : List Nat}
    (hin : acontains s.kv k = true)
    (hout : acontains ((clean_expired s ts).1).kv k = false) :
    ∃ d, aget? s.expiry_map k = some d ∧ d ≤ ts :=
  cleanLoop_kv_drop hin (by rwa [clean_kv_eq] at hout)

theorem phase_kv_sub {s : Server} {ts : ℚ} {k' k : List Nat} {v : Value}
    (h : aget? (expiryPhase s ts k').kv k = some v) : aget? s.kv k = some v := by
  unfold expiryPhase at h
  by_cases hc : check_expired (clean_expired s ts).1 ts k'
  · rw [if_pos hc] at h
    simp only at h
    by_cases hk : k = k'
    · rw [hk, aget?_adel_self] at h
      exact absurd h (by simp)
    · rw [aget?_adel_ne _ hk] at h
      exact clean_kv_sub h
  · rw [if_neg hc] at h
    exact clean_kv_sub h

theorem check_expired_some {s : Server} {ts : ℚ} {k : List Nat}
    (hc : check_expired s ts k = true) :
    ∃ d, aget? s.expiry_map k = some d ∧ d < ts := by
  unfold check_expired at hc
  cases hd : aget? s.expiry_map k with
  | none => rw [hd] at hc; simp at hc
  | some d =>
    rw [hd] at hc
    simp only [decide_eq_true_eq] at hc
    exact ⟨d, rfl, hc⟩

theorem phase_drop_expired {s : Server} {ts : ℚ} (k' : List Nat) {k : List Nat}
    (hin : acontains s.kv k = true)
    (hout : acontains (expiryPhase s ts k').kv k = false) :
    ∃ d, aget? s.expiry_map k = some d ∧ d ≤ ts := by
  unfold expiryPhase at hout
  by_cases hc : check_expired (clean_expired s ts).1 ts k'
  · rw [if_pos hc] at hout
    simp only at hout
    by_cases hdrop : acontains ((clean_expired s ts).1).kv k
    · by_cases hk : k = k'
      · subst hk
        obtain ⟨d, hd, hlt⟩ := check_expired_some hc
        exact ⟨d, clean_map_sub hd, le_of_lt hlt⟩
      · unfold acontains at hout hdrop
        rw [aget?_adel_ne _ hk] at hout
        rw [hout] at hdrop
        simp at hdrop
    · exact clean_kv_drop hin (by simpa using hdrop)
  · rw [if_neg hc] at hout
    exact clean_kv_drop hin hout

/-- Tag bookkeeping for the in-place updates the typed commands perform. -/
theorem tag_of_aset {kv : List (List Nat × Value)} {key k : List Nat}
    {dt : Nat} {pay : Payload} {v' : Value}
    (hv' : aget? (aset kv key ⟨dt, pay⟩) k = some v') :
    (k = key ∧ v'.data_type = dt) ∨ (k ≠ key ∧ aget? kv k = some v') := by
  by_cases hk : k = key
  · subst hk
    rw [aget?_aset_self] at hv'
    injection hv' with h
    exact Or.inl ⟨rfl, by rw [← h]⟩
  · rw [aget?_aset_ne _ _ hk] at hv'
    exact Or.inr ⟨hk, hv'⟩

/-! ### C2: WRONGTYPE leaves the key-space unchanged -/

/-- **C2**: a typed command (LPUSH, LPOP, HSET, HGET, SADD, SMEMBERS) whose
expected tag differs from the target key's stored tag fails with the
`WRONGTYPE` error and performs no key-space mutation of its own: the
resulting state is exactly the state the shared expiry phase produced, the
file system is untouched, and when nothing was expired the key-space is
byte-for-byte the original one. -/
theorem C2_wrongtype_no_mutation (fs : FS) (s : Server) (ts : ℚ) (c : Cmd)
    (T : Nat) (k : List Nat) (hc : typedOf c = some (T, k))
    (v : Value) (hv : aget? (expiryPhase s ts k).kv k = some v)
    (hT : v.data_type ≠ T) :
    (runCmd fs s ts c).1 =
      .err "WRONGTYPE Operation against a key holding the wrong kind of value" ∧
    (runCmd fs s ts c).2.1 = expiryPhase s ts k ∧
    (runCmd fs s ts c).2.2 = fs ∧
    (expiryPhase s ts k = s → (runCmd fs s ts c).2.1.kv = s.kv) := by
  have henf : ∀ dt, dt = T → enforce_datatype dt s ts k =
      (some "WRONGTYPE Operation against a key holding the wrong kind of value",
        expiryPhase s ts k) := by
    intro dt hdt
    subst hdt
    simp only [enforce_datatype]
    rw [hv]
    simp [hT]
  cases c <;> simp only [typedOf] at hc <;> try exact Option.noConfusion hc
  case lpush key vs =>
    obtain ⟨rfl, rfl⟩ : QUEUE = T ∧ key = k := by simpa using hc
    simp only [runCmd, lpush, henf QUEUE rfl]
    exact ⟨trivial, trivial, trivial, fun h => congrArg Server.kv h⟩
  case lpop key =>
    obtain ⟨rfl, rfl⟩ : QUEUE = T ∧ key = k := by simpa using hc
    simp only [runCmd, lpop, henf QUEUE rfl]
    exact ⟨trivial, trivial, trivial, fun h => congrArg Server.kv h⟩
  case hset key f x =>
    obtain ⟨rfl, rfl⟩ : HASH = T ∧ key = k := by simpa using hc
    simp only [runCmd, hset, henf HASH rfl]
    exact ⟨trivial, trivial, trivial, fun h => congrArg Server.kv h⟩
  case hget key f =>
    obtain ⟨rfl, rfl⟩ : HASH = T ∧ key = k := by simpa using hc
    simp only [runCmd, hget, henf HASH rfl]
    exact ⟨trivial, trivial, trivial, fun h => congrArg Server.kv h⟩
  case sadd key ms =>
    obtain ⟨rfl, rfl⟩ : SET = T ∧ key = k := by simpa using hc
    simp only [runCmd, sadd, henf SET rfl]
    exact ⟨trivial, trivial, trivial, fun h => congrArg Server.kv h⟩
  case smembers key =>
    obtain ⟨rfl, rfl⟩ : SET = T ∧ key = k := by simpa using hc
    simp only [runCmd, smembers, henf SET rfl]
    exact ⟨trivial, trivial, trivial, fun h => congrArg Server.kv h⟩

theorem C2_wrongtype_witness :
    (runCmd [] ⟨[([107], ⟨0, .pstr (.bytes [1])⟩)], [], [], ⟨0, 0, 0, 0⟩⟩ 0
        (.lpush [107] [])).1 =
      .err "WRONGTYPE Operation against a key holding the wrong kind of value" ∧
    (runCmd [] ⟨[([107], ⟨0, .pstr (.bytes [1])⟩)], [], [], ⟨0, 0, 0, 0⟩⟩ 0
        (.lpush [107] [])).2.1 =
      expiryPhase ⟨[([107], ⟨0, .pstr (.bytes [1])⟩)], [], [], ⟨0, 0, 0, 0⟩⟩ 0 [107] ∧
    (runCmd [] ⟨[([107], ⟨0, .pstr (.bytes [1])⟩)], [], [], ⟨0, 0, 0, 0⟩⟩ 0
        (.lpush [107] [])).2.2 = ([] : FS) ∧
    (expiryPhase ⟨[([107], ⟨0, .pstr (.bytes [1])⟩)], [], [], ⟨0, 0, 0, 0⟩⟩ 0 [107] =
        ⟨[([107], ⟨0, .pstr (.bytes [1])⟩)], [], [], ⟨0, 0, 0, 0⟩⟩ →
      (runCmd [] ⟨[([107], ⟨0, .pstr (.bytes [1])⟩)], [], [], ⟨0, 0, 0, 0⟩⟩ 0
          (.lpush [107] [])).2.1.kv =
        [([107], ⟨0, .pstr (.bytes [1])⟩)]) :=
  C2_wrongtype_no_mutation [] _ 0 (.lpush [107] []) QUEUE [107] (by simp [typedOf])
    ⟨0, .pstr (.bytes [1])⟩ rfl (by simp [QUEUE])

/-! ### C5: tags are immutable while an entry lives -/

theorem same_entry_tag {v v' : Value} (h : some v = some v') : v'.data_type = v.data_type := by
  injection h with h2
  rw [h2]

/-- The key-space produced by `enforce_datatype`, characterised at an
arbitrary key. -/
theorem enforce_kv_at {dt : Nat} {s : Server} {ts : ℚ} {key k : List Nat} {v' : Value}
    (hv' : aget? (enforce_datatype dt s ts key).2.kv k = some v') :
    (k ≠ key → aget? (expiryPhase s ts key).kv k = some v') ∧
    (k = key → (∃ w, aget? (expiryPhase s ts key).kv key = some w ∧ v' = w) ∨
      (aget? (expiryPhase s ts key).kv key = none ∧ v'.data_type = dt)) := by
  simp only [enforce_datatype] at hv'
  cases hp : aget? (expiryPhase s ts key).kv key with
  | some w =>
    rw [hp] at hv'
    simp only at hv'
    by_cases ht : w.data_type ≠ dt
    · rw [if_pos ht] at hv'
      refine ⟨fun _ => hv', fun hk => Or.inl ⟨w, rfl, ?_⟩⟩
      subst hk
      rw [hp] at hv'
      injection hv' with h
      exact h.symm
    · rw [if_neg ht] at hv'
      refine ⟨fun _ => hv', fun hk => Or.inl ⟨w, rfl, ?_⟩⟩
      subst hk
      rw [hp] at hv'
      injection hv' with h
      exact h.symm
  | none =>
    rw [hp] at hv'
    simp only at hv'
    constructor
    · intro hk
      rwa [aget?_aset_ne _ _ hk] at hv'
    · intro hk
      subst hk
      rw [aget?_aset_self] at hv'
      injection hv' with h
      exact Or.inr ⟨rfl, by rw [← h]⟩

/-- A typed command's error-path state (the `enforce_datatype` state itself)
either keeps every entry's tag or witnesses that the key was already
expired. -/
theorem s1_tag_expired {dt : Nat} {s : Server} {ts : ℚ} {key k : List Nat} {v v' : Value}
    (hv : aget? s.kv k = some v)
    (hv1 : aget? (enforce_datatype dt s ts key).2.kv k = some v')
    (hne : v'.data_type ≠ v.data_type) :
    ∃ d, aget? s.expiry_map k = some d ∧ d ≤ ts := by
  have h := enforce_kv_at hv1
  by_cases hk : k = key
  · rcases h.2 hk with ⟨w, hw, rfl⟩ | ⟨hnone, _⟩
    · exfalso
      have := phase_kv_sub (hk ▸ hw)
      rw [hv] at this
      exact hne (same_entry_tag this)
    · subst hk
      apply phase_drop_expired k
      · unfold acontains
        rw [hv]
        rfl
      · unfold acontains
        rw [hnone]
        rfl
  · exfalso
    have := phase_kv_sub (h.1 hk)
    rw [hv] at this
    exact hne (same_entry_tag this)

/-- Same, for the success paths that write `aset s1.kv key ⟨w.data_type, p⟩`
where `w` is the entry `enforce_datatype` left at `key`. -/
theorem s1_aset_tag_expired {dt : Nat} {s : Server} {ts : ℚ} {key k : List Nat}
    {v v' w : Value} {p : Payload}
    (hv : aget? s.kv k = some v)
    (hw : aget? (enforce_datatype dt s ts key).2.kv key = some w)
    (hv1 : aget? (aset (enforce_datatype dt s ts key).2.kv key ⟨w.data_type, p⟩) k = some v')
    (hne : v'.data_type ≠ v.data_type) :
    ∃ d, aget? s.expiry_map k = some d ∧ d ≤ ts := by
  rcases tag_of_aset hv1 with ⟨hk, htag⟩ | ⟨hk, hrest⟩
  · subst hk
    have hwk := enforce_kv_at hw
    rcases hwk.2 rfl with ⟨u, hu, rfl⟩ | ⟨hnone, _⟩
    · exfalso
      have := phase_kv_sub hu
      rw [hv] at this
      exact hne (htag.trans (same_entry_tag this))
    · apply phase_drop_expired k
      · unfold acontains
        rw [hv]
        rfl
      · unfold acontains
        rw [hnone]
        rfl
  · exact s1_tag_expired hv hrest hne

/-- **C5**: the datatype tag of a live entry never changes.  If key `k` holds
an entry before and after a command but with a different tag, then the
command was `SET k` (which destroys and replaces the entry), a successful
`RESTORE` (which replaces the whole key-space), or `k`'s deadline had
already passed (the sweep destroyed the entry and a typed command recreated
it fresh).  Typed commands on a live mismatched key fail instead of
retagging. -/
theorem C5_tag_immutable (fs : FS) (s : Server) (ts : ℚ) (c : Cmd) (k : List Nat)
    (v v' : Value) (hv : aget? s.kv k = some v)
    (hv' : aget? (runCmd fs s ts c).2.1.kv k = some v')
    (hne : v'.data_type ≠ v.data_type) :
    (∃ x, c = .set k x) ∨ (∃ f, c = .restore f) ∨
    (∃ d, aget? s.expiry_map k = some d ∧ d ≤ ts) := by
  cases c with
  | set key x =>
    by_cases hk : k = key
    · exact Or.inl ⟨x, by rw [hk]⟩
    · exfalso
      simp only [runCmd, kv_set] at hv'
      rw [aget?_aset_ne _ _ hk] at hv'
      rw [show (unexpire s key).kv = s.kv from rfl, hv] at hv'
      exact hne (same_entry_tag hv')
  | get key =>
    exfalso
    simp only [runCmd, kv_get] at hv'
    by_cases hch : check_expired (clean_expired s ts).1 ts key
    · rw [if_pos hch] at hv'
      simp only at hv'
      by_cases hk : k = key
      · rw [hk, aget?_adel_self] at hv'
        exact Option.noConfusion hv'
      · rw [aget?_adel_ne _ hk] at hv'
        have := clean_kv_sub hv'
        rw [hv] at this
        exact hne (same_entry_tag this)
    · rw [if_neg hch] at hv'
      cases hg : aget? ((clean_expired s ts).1).kv key <;> rw [hg] at hv' <;>
        simp only at hv' <;>
        · have := clean_kv_sub hv'
          rw [hv] at this
          exact hne (same_entry_tag this)
  | delete key =>
    exfalso
    simp only [runCmd, kv_delete] at hv'
    by_cases hch : acontains ((clean_expired s ts).1).kv key
    · rw [if_pos hch] at hv'
      simp only [unexpire] at hv'
      by_cases hk : k = key
      · rw [hk, aget?_adel_self] at hv'
        exact Option.noConfusion hv'
      · rw [aget?_adel_ne _ hk] at hv'
        have := clean_kv_sub hv'
        rw [hv] at this
        exact hne (same_entry_tag this)
    · rw [if_neg hch] at hv'
      have := clean_kv_sub hv'
      rw [hv] at this
      exact hne (same_entry_tag this)
  | exists' key =>
    exfalso
    simp only [runCmd, kv_exists] at hv'
    by_cases hch : check_expired (clean_expired s ts).1 ts key
    · rw [if_pos hch] at hv'
      simp only at hv'
      by_cases hk : k = key
      · rw [hk, aget?_adel_self] at hv'
        exact Option.noConfusion hv'
      · rw [aget?_adel_ne _ hk] at hv'
        have := clean_kv_sub hv'
        rw [hv] at this
        exact hne (same_entry_tag this)
    · rw [if_neg hch] at hv'
      have := clean_kv_sub hv'
      rw [hv] at this
      exact hne (same_entry_tag this)
  | lpush key vs =>
    refine Or.inr (Or.inr ?_)
    simp only [runCmd, lpush] at hv'
    rcases henf : enforce_datatype QUEUE s ts key with ⟨oe, s1⟩
    rw [henf] at hv'
    have hs1 : s1 = (enforce_datatype QUEUE s ts key).2 := by rw [henf]
    cases oe with
    | some e =>
      simp only at hv'
      exact s1_tag_expired hv (hs1 ▸ hv') hne
    | none =>
      simp only at hv'
      cases hw : aget? s1.kv key with
      | some w =>
        rw [hw] at hv'
        rcases w with ⟨wdt, wval⟩
        cases wval <;> simp only at hv'
        case pqueue q =>
          exact s1_aset_tag_expired hv (hs1 ▸ hw) (by rw [← hs1]; exact hv') hne
        all_goals exact s1_tag_expired hv (hs1 ▸ hv') hne
      | none =>
        rw [hw] at hv'
        simp only at hv'
        exact s1_tag_expired hv (hs1 ▸ hv') hne
  | lpop key =>
    refine Or.inr (Or.inr ?_)
    simp only [runCmd, lpop] at hv'
    rcases henf : enforce_datatype QUEUE s ts key with ⟨oe, s1⟩
    rw [henf] at hv'
    have hs1 : s1 = (enforce_datatype QUEUE s ts key).2 := by rw [henf]
    cases oe with
    | some e =>
      simp only at hv'
      exact s1_tag_expired hv (hs1 ▸ hv') hne
    | none =>
      simp only at hv'
      cases hw : aget? s1.kv key with
      | some w =>
        rw [hw] at hv'
        rcases w with ⟨wdt, wval⟩
        cases wval <;> simp only at hv'
        case pqueue q =>
          cases q with
          | nil =>
            simp only at hv'
            exact s1_tag_expired hv (hs1 ▸ hv') hne
          | cons x rest =>
            simp only at hv'
            exact s1_aset_tag_expired hv (hs1 ▸ hw) (by rw [← hs1]; exact hv') hne
        all_goals exact s1_tag_expired hv (hs1 ▸ hv') hne
      | none =>
        rw [hw] at hv'
        simp only at hv'
        exact s1_tag_expired hv (hs1 ▸ hv') hne
  | hset key f x =>
    refine Or.inr (Or.inr ?_)
    simp only [runCmd, hset] at hv'
    rcases henf : enforce_datatype HASH s ts key with ⟨oe, s1⟩
    rw [henf] at hv'
    have hs1 : s1 = (enforce_datatype HASH s ts key).2 := by rw [henf]
    cases oe with
    | some e =>
      simp only at hv'
      exact s1_tag_expired hv (hs1 ▸ hv') hne
    | none =>
      simp only at hv'
      cases hw : aget? s1.kv key with
      | some w =>
        rw [hw] at hv'
        rcases w with ⟨wdt, wval⟩
        cases wval <;> simp only at hv'
        case phash m =>
          exact s1_aset_tag_expired hv (hs1 ▸ hw) (by rw [← hs1]; exact hv') hne
        all_goals exact s1_tag_expired hv (hs1 ▸ hv') hne
      | none =>
        rw [hw] at hv'
        simp only at hv'
        exact s1_tag_expired hv (hs1 ▸ hv') hne
  | hget key f =>
    refine Or.inr (Or.inr ?_)
    simp only [runCmd, hget] at hv'
    rcases henf : enforce_datatype HASH s ts key with ⟨oe, s1⟩
    rw [henf] at hv'
    have hs1 : s1 = (enforce_datatype HASH s ts key).2 := by rw [henf]
    cases oe with
    | some e =>
      simp only at hv'
      exact s1_tag_expired hv (hs1 ▸ hv') hne
    | none =>
      simp only at hv'
      cases hw : aget? s1.kv key with
      | some w =>
        rw [hw] at hv'
        rcases w with ⟨wdt, wval⟩
        cases wval <;> simp only at hv'
        case phash m =>
          cases hg : rDictGet? m f <;> rw [hg] at hv' <;> simp only at hv' <;>
            exact s1_tag_expired hv (hs1 ▸ hv') hne
        all_goals exact s1_tag_expired hv (hs1 ▸ hv') hne
      | none =>
        rw [hw] at hv'
        simp only at hv'
        exact s1_tag_expired hv (hs1 ▸ hv') hne
  | sadd key ms =>
    refine Or.inr (Or.inr ?_)
    simp only [runCmd, sadd] at hv'
    rcases henf : enforce_datatype SET s ts key with ⟨oe, s1⟩
    rw [henf] at hv'
    have hs1 : s1 = (enforce_datatype SET s ts key).2 := by rw [henf]
    cases oe with
    | some e =>
      simp only at hv'
      exact s1_tag_expired hv (hs1 ▸ hv') hne
    | none =>
      simp only at hv'
      cases hw : aget? s1.kv key with
      | some w =>
        rw [hw] at hv'
        rcases w with ⟨wdt, wval⟩
        cases wval <;> simp only at hv'
        case pset x =>
          exact s1_aset_tag_expired hv (hs1 ▸ hw) (by rw [← hs1]; exact hv') hne
        all_goals exact s1_tag_expired hv (hs1 ▸ hv') hne
      | none =>
        rw [hw] at hv'
        simp only at hv'
        exact s1_tag_expired hv (hs1 ▸ hv') hne
  | smembers key =>
    refine Or.inr (Or.inr ?_)
    simp only [runCmd, smembers] at hv'
    rcases henf : enforce_datatype SET s ts key with ⟨oe, s1⟩
    rw [henf] at hv'
    have hs1 : s1 = (enforce_datatype SET s ts key).2 := by rw [henf]
    cases oe with
    | some e =>
      simp only at hv'
      exact s1_tag_expired hv (hs1 ▸ hv') hne
    | none =>
      simp only at hv'
      cases hw : aget? s1.kv key with
      | some w =>
        rw [hw] at hv'
        rcases w with ⟨wdt, wval⟩
        cases wval <;> simp only at hv' <;>
          exact s1_tag_expired hv (hs1 ▸ hv') hne
      | none =>
        rw [hw] at hv'
        simp only at hv'
        exact s1_tag_expired hv (hs1 ▸ hv') hne
  | expire key secs =>
    exfalso
    simp only [runCmd, expire] at hv'
    by_cases hch : acontains s.kv key
    · rw [if_pos hch] at hv'
      simp only at hv'
      rw [hv] at hv'
      exact hne (same_entry_tag hv')
    · rw [if_neg hch] at hv'
      simp only at hv'
      rw [hv] at hv'
      exact hne (same_entry_tag hv')
  | flushall =>
    exfalso
    simp only [runCmd, flush_all] at hv'
    exact Option.noConfusion hv'
  | save f =>
    exfalso
    simp only [runCmd, save_to_disk] at hv'
    rw [hv] at hv'
    exact hne (same_entry_tag hv')
  | restore f => exact Or.inr (Or.inl ⟨f, rfl⟩)
  | info =>
    exfalso
    simp only [runCmd, info] at hv'
    have := clean_kv_sub hv'
    rw [hv] at this
    exact hne (same_entry_tag this)
  | quit =>
    exfalso
    simp only [runCmd] at hv'
    rw [hv] at hv'
    exact hne (same_entry_tag hv')
  | shutdown =>
    exfalso
    simp only [runCmd] at hv'
    rw [hv] at hv'
    exact hne (same_entry_tag hv')

theorem C5_tag_immutable_witness :
    (∃ x, Cmd.lpush [107] [] = .set [107] x) ∨
    (∃ f, Cmd.lpush [107] [] = .restore f) ∨
    (∃ d, aget? (⟨[([107], ⟨0, .pstr (.bytes [1])⟩)], [(3, [107])], [([107], 3)],
        ⟨0, 0, 0, 0⟩⟩ : Server).expiry_map [107] = some d ∧ d ≤ 10) :=
  C5_tag_immutable [] _ 10 (.lpush [107] []) [107] ⟨0, .pstr (.bytes [1])⟩
    ⟨2, .pqueue []⟩ rfl (by
      show aget? (runCmd [] _ 10 (.lpush [107] [])).2.1.kv [107] = _
      simp [runCmd, lpush, enforce_datatype, expiryPhase, clean_expired, cleanLoop,
        check_expired, aget?, adel, aset, acontains, emptyPayload, QUEUE])
    (by simp [KV, QUEUE])

/-! ### C3: expiry soundness and the per-key boundary -/

theorem mapInHeap_spec {s : Server} (hb : mapInHeap s = true) :
    ∀ k d, aget? s.expiry_map k = some d → (d, k) ∈ s.expiry := by
  intro k d hd
  have hm := aget?_mem hd
  have := List.all_eq_true.mp hb _ hm
  simpa using this

/-- With a sorted, map-backed heap, the sweep leaves no deadline at or below
`ts`, so the per-key check never fires on a swept state. -/
theorem check_clean_false {s : Server} {ts : ℚ} (k : List Nat)
    (hs : heapSorted s.expiry) (hb : mapInHeap s = true) :
    check_expired ((clean_expired s ts).1) ts k = false := by
  unfold check_expired
  cases hd : aget? ((clean_expired s ts).1).expiry_map k with
  | none => rfl
  | some d =>
    have hlt : ts < d :=
      cleanLoop_map_post hs (mapInHeap_spec hb) (clean_map_eq s ts ▸ hd)
    simp [not_lt_of_gt hlt, le_of_lt hlt]

/-- **C3** (counterexample).  The per-key check is strict: with
`expiryMap[k] = 5` (and no backing heap entry to sweep), a read at
`now = 5 = d` finds `check_expired` false and returns the stored value with
the key still present — the claim's boundary case `now == d` does not drop
the entry via the per-key check. -/
theorem C3_boundary_counterexample :
    check_expired ⟨[([107], ⟨0, .pstr (.bytes [1])⟩)], [], [([107], 5)], ⟨0, 0, 0, 0⟩⟩
        5 [107] = false ∧
    kv_get ⟨[([107], ⟨0, .pstr (.bytes [1])⟩)], [], [([107], 5)], ⟨0, 0, 0, 0⟩⟩ 5 [107]
      = (.val (.bytes [1]),
         ⟨[([107], ⟨0, .pstr (.bytes [1])⟩)], [], [([107], 5)], ⟨0, 0, 0, 0⟩⟩) := by
  constructor
  · show (match aget? [([107], (5 : ℚ))] [107] with
      | some d => decide ((5 : ℚ) > d)
      | none => false) = false
    simp [aget?]
  · simp [kv_get, clean_expired, cleanLoop, check_expired, aget?, rvalOfPayload]

/-- **C3** (amended): the per-key check (`check_expired`) fires exactly for
deadlines strictly below the clock (`ts > d`, first conjunct); the boundary
case `now == d` — and every `d ≤ now` — is instead handled by the heap
sweep: on a deadline-sorted heap that backs the expiry map, any key whose
deadline has been reached is dropped by the sweep, so GET returns null,
EXISTS returns 0, and the key-space no longer contains it (second
conjunct). -/
theorem C3_expiry_soundness_amended (s : Server) (ts : ℚ) (k : List Nat) :
    (check_expired s ts k = true ↔ ∃ d, aget? s.expiry_map k = some d ∧ d < ts) ∧
    (∀ d, heapSorted s.expiry → mapInHeap s = true →
      aget? s.expiry_map k = some d → d ≤ ts →
      kv_get s ts k = (.val .null, (clean_expired s ts).1) ∧
      acontains ((clean_expired s ts).1).kv k = false ∧
      kv_exists s ts k = (.val (.int 0), (clean_expired s ts).1)) := by
  constructor
  · constructor
    · exact check_expired_some
    · rintro ⟨d, hd, hlt⟩
      unfold check_expired
      rw [hd]
      simpa using hlt
  · intro d hs hb hd hdts
    have hgone := cleanLoop_expired_gone s.kv hs (mapInHeap_spec hb k d hd) hd hdts
    have hmap : aget? ((clean_expired s ts).1).expiry_map k = none := by
      rw [clean_map_eq]
      exact hgone.1
    have hkv : acontains ((clean_expired s ts).1).kv k = false := by
      rw [clean_kv_eq]
      exact hgone.2
    have hchk : check_expired ((clean_expired s ts).1) ts k = false := by
      unfold check_expired
      rw [hmap]
    have hnone : aget? ((clean_expired s ts).1).kv k = none := by
      unfold acontains at hkv
      cases hx : aget? ((clean_expired s ts).1).kv k with
      | none => rfl
      | some v => rw [hx] at hkv; simp at hkv
    refine ⟨?_, hkv, ?_⟩
    · simp only [kv_get, hchk, Bool.false_eq_true, if_false, hnone]
    · simp only [kv_exists, hchk, Bool.false_eq_true, if_false, hkv]

theorem C3_expiry_witness :
    kv_get ⟨[([107], ⟨0, .pstr (.bytes [1])⟩)], [(5, [107])], [([107], 5)], ⟨0, 0, 0, 0⟩⟩
        5 [107] =
      (.val .null,
        (clean_expired ⟨[([107], ⟨0, .pstr (.bytes [1])⟩)], [(5, [107])], [([107], 5)],
          ⟨0, 0, 0, 0⟩⟩ 5).1) ∧
    acontains ((clean_expired ⟨[([107], ⟨0, .pstr (.bytes [1])⟩)], [(5, [107])],
        [([107], 5)], ⟨0, 0, 0, 0⟩⟩ 5).1).kv [107] = false ∧
    kv_exists ⟨[([107], ⟨0, .pstr (.bytes [1])⟩)], [(5, [107])], [([107], 5)], ⟨0, 0, 0, 0⟩⟩
        5 [107] =
      (.val (.int 0),
        (clean_expired ⟨[([107], ⟨0, .pstr (.bytes [1])⟩)], [(5, [107])], [([107], 5)],
          ⟨0, 0, 0, 0⟩⟩ 5).1) :=
  (C3_expiry_soundness_amended _ 5 [107]).2 5
    (by simp [heapSorted]) (by simp [mapInHeap, aget?]) rfl le_rfl

/-! ### C4: which commands sweep, and EXPIRE on an expired key -/

theorem clean_idem (s : Server) (ts : ℚ) :
    clean_expired ((clean_expired s ts).1) ts = ((clean_expired s ts).1, 0) := by
  show (let r := cleanLoop ((clean_expired s ts).1).expiry ((clean_expired s ts).1).expiry_map
          ((clean_expired s ts).1).kv ts
        ({ (clean_expired s ts).1 with expiry := r.1, expiry_map := r.2.1, kv := r.2.2.1 },
          r.2.2.2)) = ((clean_expired s ts).1, 0)
  have heq : ((clean_expired s ts).1).expiry = (cleanLoop s.expiry s.expiry_map s.kv ts).1 := rfl
  rw [heq, cleanLoop_idem]
  rfl

theorem expiryPhase_clean (s : Server) (ts : ℚ) (key : List Nat) :
    expiryPhase ((clean_expired s ts).1) ts key = expiryPhase s ts key := by
  unfold expiryPhase
  rw [clean_idem]

theorem enforce_clean (dt : Nat) (s : Server) (ts : ℚ) (key : List Nat) :
    enforce_datatype dt ((clean_expired s ts).1) ts key = enforce_datatype dt s ts key := by
  unfold enforce_datatype
  rw [expiryPhase_clean]

/-- **C4** (counterexample).  `EXPIRE` does not sweep: on a state whose key
`k` has a deadline of 5 already passed at `now = 10` (with the heap entry
present, so the claimed sweep would have removed it), `EXPIRE k 100` finds
the key still present and returns 1 — the claim demands 0. -/
theorem C4_expire_counterexample :
    (runCmd [] ⟨[([107], ⟨0, .pstr (.bytes [1])⟩)], [(5, [107])], [([107], 5)],
        ⟨0, 0, 0, 0⟩⟩ 10 (.expire [107] 100)).1 = .val (.int 1) ∧
    Ret.val (.int 1) ≠ Ret.val (.int 0) := by
  constructor
  · rfl
  · intro h
    injection h with h2
    injection h2 with h3
    exact absurd h3 (by decide)

/-- **C4** (amended): the reads, the six typed commands and INFO do run the
lazy sweep before acting (their behaviour is unchanged by pre-sweeping, first
conjunct), but `SET` and `EXPIRE` do not: `SET` writes into the unswept
key-space and leaves the heap alone (fourth conjunct), and `EXPIRE` on any
key still present in the unswept key-space — even one whose deadline has
passed — returns 1 and reschedules it (second conjunct); it returns 0 only
when the key is absent from the unswept key-space (third conjunct). -/
theorem C4_sweep_amended (fs : FS) (s : Server) (ts : ℚ) (c : Cmd) (k : List Nat)
    (secs : Int) (x : RVal) :
    (doesSweep c = true → runCmd fs s ts c = runCmd fs ((clean_expired s ts).1) ts c) ∧
    (acontains s.kv k = true → (runCmd fs s ts (.expire k secs)).1 = .val (.int 1)) ∧
    (acontains s.kv k = false → runCmd fs s ts (.expire k secs) = (.val (.int 0), s, fs)) ∧
    ((runCmd fs s ts (.set k x)).2.1.kv = aset s.kv k ⟨KV, .pstr x⟩ ∧
     (runCmd fs s ts (.set k x)).2.1.expiry = s.expiry) := by
  refine ⟨?_, ?_, ?_, rfl, rfl⟩
  · intro hds
    cases c <;> simp only [doesSweep] at hds <;> try exact Bool.noConfusion hds
    case get key => simp only [runCmd, kv_get, clean_idem]
    case delete key => simp only [runCmd, kv_delete, clean_idem]
    case exists' key => simp only [runCmd, kv_exists, clean_idem]
    case lpush key vs => simp only [runCmd, lpush, enforce_clean]
    case lpop key => simp only [runCmd, lpop, enforce_clean]
    case hset key f y => simp only [runCmd, hset, enforce_clean]
    case hget key f => simp only [runCmd, hget, enforce_clean]
    case sadd key ms => simp only [runCmd, sadd, enforce_clean]
    case smembers key => simp only [runCmd, smembers, enforce_clean]
    case info => simp only [runCmd, info, clean_idem]
  · intro hc
    simp only [runCmd, expire, hc]
    rfl
  · intro hc
    simp only [runCmd, expire, hc]
    rfl

theorem C4_sweep_witness :
    runCmd [] ⟨[([107], ⟨0, .pstr (.bytes [1])⟩)], [(5, [107])], [([107], 5)], ⟨0, 0, 0, 0⟩⟩
        10 (.get [107]) =
      runCmd []
        ((clean_expired ⟨[([107], ⟨0, .pstr (.bytes [1])⟩)], [(5, [107])], [([107], 5)],
          ⟨0, 0, 0, 0⟩⟩ 10).1) 10 (.get [107]) ∧
    (runCmd [] ⟨[([107], ⟨0, .pstr (.bytes [1])⟩)], [(5, [107])], [([107], 5)], ⟨0, 0, 0, 0⟩⟩
        10 (.expire [107] 100)).1 = .val (.int 1) ∧
    runCmd [] ⟨[([107], ⟨0, .pstr (.bytes [1])⟩)], [(5, [107])], [([107], 5)], ⟨0, 0, 0, 0⟩⟩
        10 (.expire [0] 100) =
      (.val (.int 0),
       ⟨[([107], ⟨0, .pstr (.bytes [1])⟩)], [(5, [107])], [([107], 5)], ⟨0, 0, 0, 0⟩⟩, []) :=
  ⟨(C4_sweep_amended [] _ 10 (.get [107]) [107] 0 .null).1 rfl,
   (C4_sweep_amended [] _ 10 (.get [107]) [107] 100 .null).2.1 rfl,
   (C4_sweep_amended [] _ 10 (.get [107]) [0] 100 .null).2.2.1 rfl⟩

/-! ### C6: snapshot round-trip -/

/-- **C6**: `SAVE f; FLUSHALL; RESTORE f` answers 1 and reproduces the
key-space (byte-for-byte, including raw non-UTF-8 byte strings) and the full
expiry map, with the heap rebuilt by pushing every restored `(eta, key)`
pair; `RESTORE` of a missing file answers 0 and changes nothing. -/
theorem C6_snapshot_roundtrip (fs : FS) (s : Server) (ts1 ts2 ts3 : ℚ) (f : List Nat) :
    (let r1 := runCmd fs s ts1 (.save f)
     let r2 := runCmd r1.2.2 r1.2.1 ts2 .flushall
     let r3 := runCmd r2.2.2 r2.2.1 ts3 (.restore f)
     r1.1 = .ok ∧ r2.2.1.kv = [] ∧ r2.2.1.expiry_map = [] ∧
     r3.1 = .val (.int 1) ∧ r3.2.1.kv = s.kv ∧
     r3.2.1.expiry_map = s.expiry_map ∧
     r3.2.1.expiry = heapFromMap s.expiry_map ∧
     r3.2.1.stats = r2.2.1.stats) ∧
    (aget? fs f = none → runCmd fs s ts3 (.restore f) = (.val (.int 0), s, fs)) := by
  constructor
  · simp [runCmd, save_to_disk, flush_all, restore_from_disk, aget?_aset_self]
  · intro h
    simp only [runCmd, restore_from_disk, h]

theorem C6_snapshot_witness :
    runCmd [] ⟨[([107], ⟨0, .pstr (.bytes [128])⟩)], [], [], ⟨0, 0, 0, 0⟩⟩ 3
        (.restore [102]) =
      (.val (.int 0), ⟨[([107], ⟨0, .pstr (.bytes [128])⟩)], [], [], ⟨0, 0, 0, 0⟩⟩, []) :=
  (C6_snapshot_roundtrip [] _ 1 2 3 [102]).2 rfl

/-! ### C8: LPUSH / LPOP semantics -/

theorem aset_aset {K V : Type} [DecidableEq K] (m : List (K × V)) (k : K) (v1 v2 : V) :
    aset (aset m k v1) k v2 = aset m k v2 := by
  induction m with
  | nil => simp [aset]
  | cons p t ih =>
    by_cases hp : p.1 = k
    · simp [aset, hp]
    · simp [aset, hp, ih]

theorem aset_length_absent {K V : Type} [DecidableEq K] {m : List (K × V)} {k : K}
    (h : aget? m k = none) (v : V) : (aset m k v).length = m.length + 1 := by
  induction m with
  | nil => simp [aset]
  | cons p t ih =>
    by_cases hp : p.1 = k
    · simp [aget?, hp] at h
    · simp only [aget?, if_neg hp] at h
      simp [aset, hp, ih h]

/-- **C8**: LPUSH prepends the argument block reversed (so the last argument
is at the front) and answers the new length, creating the list when the key
is missing; LPOP pops the front, answers null on an empty or just-created
list, and the container exists afterwards in every case. -/
theorem C8_lpush_lpop (s : Server) (ts : ℚ) (k : List Nat) (vs : List RVal) :
    (∀ q, aget? (expiryPhase s ts k).kv k = some ⟨QUEUE, .pqueue q⟩ →
      lpush s ts k vs = (.val (.int (vs.length + q.length)),
        { expiryPhase s ts k with
            kv := aset (expiryPhase s ts k).kv k ⟨QUEUE, .pqueue (vs.reverse ++ q)⟩ }) ∧
      (vs ≠ [] → (vs.reverse ++ q).head? = vs.getLast?)) ∧
    (aget? (expiryPhase s ts k).kv k = none →
      lpush s ts k vs = (.val (.int vs.length),
        { expiryPhase s ts k with
            kv := aset (expiryPhase s ts k).kv k ⟨QUEUE, .pqueue vs.reverse⟩ })) ∧
    (∀ x q, aget? (expiryPhase s ts k).kv k = some ⟨QUEUE, .pqueue (x :: q)⟩ →
      lpop s ts k = (.val x,
        { expiryPhase s ts k with
            kv := aset (expiryPhase s ts k).kv k ⟨QUEUE, .pqueue q⟩ })) ∧
    (aget? (expiryPhase s ts k).kv k = some ⟨QUEUE, .pqueue []⟩ →
      lpop s ts k = (.val .null, expiryPhase s ts k)) ∧
    (aget? (expiryPhase s ts k).kv k = none →
      lpop s ts k = (.val .null,
        { expiryPhase s ts k with
            kv := aset (expiryPhase s ts k).kv k ⟨QUEUE, .pqueue []⟩ }) ∧
      aget? (aset (expiryPhase s ts k).kv k ⟨QUEUE, .pqueue []⟩) k
        = some ⟨QUEUE, .pqueue []⟩) := by
  refine ⟨?_, ?_, ?_, ?_, ?_⟩
  · intro q hq
    have henf : enforce_datatype QUEUE s ts k = (none, expiryPhase s ts k) := by
      simp only [enforce_datatype, hq]
      simp
    constructor
    · simp only [lpush, henf, hq]
      have hlen : (((vs.reverse ++ q).length : Nat) : Int)
          = ((vs.length : Nat) : Int) + (q.length : Nat) := by
        simp [List.length_append]
      rw [hlen]
    · intro hvs
      rw [List.head?_append_of_ne_nil _ (by simpa using hvs)]
      exact List.head?_reverse vs
  · intro hq
    have henf : enforce_datatype QUEUE s ts k = (none,
        { expiryPhase s ts k with
            kv := aset (expiryPhase s ts k).kv k ⟨QUEUE, .pqueue []⟩ }) := by
      simp only [enforce_datatype, hq]
      rfl
    simp only [lpush, henf, aget?_aset_self, aset_aset, List.append_nil]
    have hlen : (((vs.reverse).length : Nat) : Int) = ((vs.length : Nat) : Int) := by
      simp
    rw [hlen]
  · intro x q hq
    have henf : enforce_datatype QUEUE s ts k = (none, expiryPhase s ts k) := by
      simp only [enforce_datatype, hq]
      simp
    simp only [lpop, henf, hq]
  · intro hq
    have henf : enforce_datatype QUEUE s ts k = (none, expiryPhase s ts k) := by
      simp only [enforce_datatype, hq]
      simp
    simp only [lpop, henf, hq]
  · intro hq
    have henf : enforce_datatype QUEUE s ts k = (none,
        { expiryPhase s ts k with
            kv := aset (expiryPhase s ts k).kv k ⟨QUEUE, .pqueue []⟩ }) := by
      simp only [enforce_datatype, hq]
      rfl
    refine ⟨?_, aget?_aset_self _ _ _⟩
    simp only [lpop, henf, aget?_aset_self]

theorem C8_lpush_lpop_witness :
    lpush ⟨[], [], [], ⟨0, 0, 0, 0⟩⟩ 0 [108] [.bytes [97], .bytes [98]] =
      (.val (.int 2),
        { expiryPhase ⟨[], [], [], ⟨0, 0, 0, 0⟩⟩ 0 [108] with
            kv := aset (expiryPhase ⟨[], [], [], ⟨0, 0, 0, 0⟩⟩ 0 [108]).kv [108]
              ⟨QUEUE, .pqueue [.bytes [98], .bytes [97]]⟩ }) ∧
    lpop ⟨[], [], [], ⟨0, 0, 0, 0⟩⟩ 0 [108] =
      (.val .null,
        { expiryPhase ⟨[], [], [], ⟨0, 0, 0, 0⟩⟩ 0 [108] with
            kv := aset (expiryPhase ⟨[], [], [], ⟨0, 0, 0, 0⟩⟩ 0 [108]).kv [108]
              ⟨QUEUE, .pqueue []⟩ }) :=
  ⟨(C8_lpush_lpop ⟨[], [], [], ⟨0, 0, 0, 0⟩⟩ 0 [108] [.bytes [97], .bytes [98]]).2.1 rfl,
   ((C8_lpush_lpop ⟨[], [], [], ⟨0, 0, 0, 0⟩⟩ 0 [108] []).2.2.2.2 rfl).1⟩

/-! ### C9: dispatch, case folding and the error texts -/

theorem bupper_idem (b : List Nat) : bupper (bupper b) = bupper b := by
  induction b with
  | nil => rfl
  | cons x t ih =>
    simp only [bupper, List.map_cons] at ih ⊢
    rw [show (List.map (fun b => if 97 ≤ b ∧ b ≤ 122 then b - 32 else b)
        (List.map (fun b => if 97 ≤ b ∧ b ≤ 122 then b - 32 else b) t))
        = List.map (fun b => if 97 ≤ b ∧ b ≤ 122 then b - 32 else b) t from ih]
    congr 1
    by_cases hx : 97 ≤ x ∧ x ≤ 122
    · rw [if_pos hx, if_neg (by omega)]
    · rw [if_neg hx, if_neg hx]

/-- **C9** (counterexample).  The empty-request error message is
`Empty request`, not the claimed `EMPTY REQUEST` (and the unknown-command
message is `Unknown command: <repr>`, not `UNKNOWN COMMAND: <name>`). -/
theorem C9_message_counterexample :
    respond [] ⟨[], [], [], ⟨0, 0, 0, 0⟩⟩ 0 []
      = (.err "Empty request", ⟨[], [], [], ⟨0, 0, 0, 0⟩⟩, []) ∧
    "Empty request" ≠ "EMPTY REQUEST" := by
  exact ⟨rfl, by decide⟩

/-- **C9** (amended): command resolution uppercases a byte-string first
element, hence is case-insensitive (first conjunct); a request with zero
elements fails with the message `Empty request`, leaving engine state and
file system unchanged (second conjunct); a first element resolving to no
command fails with `Unknown command: ` followed by the Python repr of the
uppercased token (`b'NAME'` for byte strings), also leaving all state
unchanged (third conjunct). -/
theorem C9_dispatch_amended (fs : FS) (s : Server) (ts : ℚ) (b : List Nat)
    (args : List RVal) :
    respond fs s ts (.bytes b :: args) = respond fs s ts (.bytes (bupper b) :: args) ∧
    respond fs s ts [] = (.err "Empty request", s, fs) ∧
    ((∀ nm ∈ commandNames, bupper b ≠ nm) →
      respond fs s ts (.bytes b :: args) =
        (.err ("Unknown command: " ++ pyStrOfRVal (.bytes (bupper b))), s, fs)) := by
  refine ⟨?_, rfl, ?_⟩
  · show dispatchTok fs s ts args (.bytes (bupper b))
      = dispatchTok fs s ts args (.bytes (bupper (bupper b)))
    rw [bupper_idem]
  · intro h
    have h1 := h _ (show bytesOfAscii "SET" ∈ commandNames by simp [commandNames])
    have h2 := h _ (show bytesOfAscii "GET" ∈ commandNames by simp [commandNames])
    have h3 := h _ (show bytesOfAscii "DELETE" ∈ commandNames by simp [commandNames])
    have h4 := h _ (show bytesOfAscii "EXISTS" ∈ commandNames by simp [commandNames])
    have h5 := h _ (show bytesOfAscii "LPUSH" ∈ commandNames by simp [commandNames])
    have h6 := h _ (show bytesOfAscii "LPOP" ∈ commandNames by simp [commandNames])
    have h7 := h _ (show bytesOfAscii "HSET" ∈ commandNames by simp [commandNames])
    have h8 := h _ (show bytesOfAscii "HGET" ∈ commandNames by simp [commandNames])
    have h9 := h _ (show bytesOfAscii "SADD" ∈ commandNames by simp [commandNames])
    have h10 := h _ (show bytesOfAscii "SMEMBERS" ∈ commandNames by simp [commandNames])
    have h11 := h _ (show bytesOfAscii "EXPIRE" ∈ commandNames by simp [commandNames])
    have h12 := h _ (show bytesOfAscii "FLUSHALL" ∈ commandNames by simp [commandNames])
    have h13 := h _ (show bytesOfAscii "SAVE" ∈ commandNames by simp [commandNames])
    have h14 := h _ (show bytesOfAscii "RESTORE" ∈ commandNames by simp [commandNames])
    have h15 := h _ (show bytesOfAscii "INFO" ∈ commandNames by simp [commandNames])
    have h16 := h _ (show bytesOfAscii "QUIT" ∈ commandNames by simp [commandNames])
    have h17 := h _ (show bytesOfAscii "SHUTDOWN" ∈ commandNames by simp [commandNames])
    show dispatchTok fs s ts args (.bytes (bupper b)) = _
    simp only [dispatchTok]
    rw [if_neg h1, if_neg h2, if_neg h3, if_neg h4, if_neg h5, if_neg h6,
      if_neg h7, if_neg h8, if_neg h9, if_neg h10, if_neg h11, if_neg h12,
      if_neg h13, if_neg h14, if_neg h15, if_neg h16, if_neg h17]

theorem C9_dispatch_witness :
    respond [] ⟨[], [], [], ⟨0, 0, 0, 0⟩⟩ 0 [.bytes [120]] =
      (.err ("Unknown command: " ++ pyStrOfRVal (.bytes (bupper [120]))),
        ⟨[], [], [], ⟨0, 0, 0, 0⟩⟩, []) :=
  (C9_dispatch_amended [] _ 0 [120] []).2.2 (by decide)

/-! ### C10: HGET and SMEMBERS create containers -/

theorem clean_expired_set_kv (s : Server) (ts : ℚ) (X : List (List Nat × Value)) :
    clean_expired { (clean_expired s ts).1 with kv := X } ts
      = ({ (clean_expired s ts).1 with kv := X }, 0) := by
  show (let r := cleanLoop ({ (clean_expired s ts).1 with kv := X }).expiry
          ({ (clean_expired s ts).1 with kv := X }).expiry_map
          ({ (clean_expired s ts).1 with kv := X }).kv ts
        ({ { (clean_expired s ts).1 with kv := X } with
            expiry := r.1, expiry_map := r.2.1, kv := r.2.2.1 }, r.2.2.2))
      = ({ (clean_expired s ts).1 with kv := X }, 0)
  have heq : ({ (clean_expired s ts).1 with kv := X }).expiry
      = (cleanLoop s.expiry s.expiry_map s.kv ts).1 := rfl
  rw [heq, cleanLoop_idem]
  rfl

/-- **C10**: `HGET`/`SMEMBERS` on a key that is absent after the sweep
silently create an empty container of the corresponding type before
returning null / the empty list; a subsequent `EXISTS` answers 1; `INFO`
reports the counters and a key count that now includes the created
container (one more key than the swept key-space had).  These nominally
read-only commands do mutate the key-space. -/
theorem C10_read_creates_container (s : Server) (ts : ℚ) (k : List Nat) (f : RVal)
    (hs : heapSorted s.expiry) (hb : mapInHeap s = true)
    (habs : aget? ((clean_expired s ts).1).kv k = none) :
    hget s ts k f = (.val .null,
      { (clean_expired s ts).1 with
          kv := aset ((clean_expired s ts).1).kv k ⟨HASH, .phash []⟩ }) ∧
    smembers s ts k = (.val (.arr []),
      { (clean_expired s ts).1 with
          kv := aset ((clean_expired s ts).1).kv k ⟨SET, .pset []⟩ }) ∧
    kv_exists (hget s ts k f).2 ts k = (.val (.int 1), (hget s ts k f).2) ∧
    kv_exists (smembers s ts k).2 ts k = (.val (.int 1), (smembers s ts k).2) ∧
    info (hget s ts k f).2 ts =
      (.val (.map
        [(.bytes (bytesOfAscii "active_connections"), .int s.stats.active_connections),
         (.bytes (bytesOfAscii "commands_processed"), .int s.stats.commands_processed),
         (.bytes (bytesOfAscii "command_errors"), .int s.stats.command_errors),
         (.bytes (bytesOfAscii "connections"), .int s.stats.connections),
         (.bytes (bytesOfAscii "keys"), .int ((hget s ts k f).2.kv.length))]),
       (hget s ts k f).2) ∧
    (hget s ts k f).2.kv.length = ((clean_expired s ts).1).kv.length + 1 := by
  have hphase : expiryPhase s ts k = (clean_expired s ts).1 := by
    simp only [expiryPhase, check_clean_false k hs hb, Bool.false_eq_true, if_false]
  have henfH : enforce_datatype HASH s ts k = (none,
      { (clean_expired s ts).1 with
          kv := aset ((clean_expired s ts).1).kv k ⟨HASH, .phash []⟩ }) := by
    simp only [enforce_datatype, hphase, habs]
    rfl
  have henfS : enforce_datatype SET s ts k = (none,
      { (clean_expired s ts).1 with
          kv := aset ((clean_expired s ts).1).kv k ⟨SET, .pset []⟩ }) := by
    simp only [enforce_datatype, hphase, habs]
    rfl
  have hH : hget s ts k f = (.val .null,
      { (clean_expired s ts).1 with
          kv := aset ((clean_expired s ts).1).kv k ⟨HASH, .phash []⟩ }) := by
    simp only [hget, henfH, aget?_aset_self, rDictGet?, List.find?_nil, Option.map_none']
  have hS : smembers s ts k = (.val (.arr []),
      { (clean_expired s ts).1 with
          kv := aset ((clean_expired s ts).1).kv k ⟨SET, .pset []⟩ }) := by
    simp only [smembers, henfS, aget?_aset_self]
  have hchk2 : ∀ X, check_expired
      { (clean_expired s ts).1 with kv := X } ts k = false :=
    fun X => check_clean_false k hs hb
  have hex : ∀ X, acontains X k = true →
      kv_exists { (clean_expired s ts).1 with kv := X } ts k
        = (.val (.int 1), { (clean_expired s ts).1 with kv := X }) := by
    intro X hX
    simp only [kv_exists, clean_expired_set_kv, hchk2 X, Bool.false_eq_true, if_false, hX]
    norm_num
  refine ⟨hH, hS, ?_, ?_, ?_, ?_⟩
  · rw [hH]
    exact hex _ (by unfold acontains; rw [aget?_aset_self]; rfl)
  · rw [hS]
    exact hex _ (by unfold acontains; rw [aget?_aset_self]; rfl)
  · rw [hH]
    simp only [info, clean_expired_set_kv]
    rfl
  · rw [hH]
    exact aset_length_absent habs _

theorem C10_read_creates_witness :
    hget ⟨[], [], [], ⟨0, 0, 0, 0⟩⟩ 0 [104] (.bytes [102]) = (.val .null,
      { (clean_expired ⟨[], [], [], ⟨0, 0, 0, 0⟩⟩ 0).1 with
          kv := aset ((clean_expired ⟨[], [], [], ⟨0, 0, 0, 0⟩⟩ 0).1).kv [104]
            ⟨HASH, .phash []⟩ }) ∧
    smembers ⟨[], [], [], ⟨0, 0, 0, 0⟩⟩ 0 [104] = (.val (.arr []),
      { (clean_expired ⟨[], [], [], ⟨0, 0, 0, 0⟩⟩ 0).1 with
          kv := aset ((clean_expired ⟨[], [], [], ⟨0, 0, 0, 0⟩⟩ 0).1).kv [104]
            ⟨SET, .pset []⟩ }) ∧
    kv_exists (hget ⟨[], [], [], ⟨0, 0, 0, 0⟩⟩ 0 [104] (.bytes [102])).2 0 [104]
      = (.val (.int 1), (hget ⟨[], [], [], ⟨0, 0, 0, 0⟩⟩ 0 [104] (.bytes [102])).2) ∧
    kv_exists (smembers ⟨[], [], [], ⟨0, 0, 0, 0⟩⟩ 0 [104]).2 0 [104]
      = (.val (.int 1), (smembers ⟨[], [], [], ⟨0, 0, 0, 0⟩⟩ 0 [104]).2) ∧
    info (hget ⟨[], [], [], ⟨0, 0, 0, 0⟩⟩ 0 [104] (.bytes [102])).2 0 =
      (.val (.map
        [(.bytes (bytesOfAscii "active_connections"), .int 0),
         (.bytes (bytesOfAscii "commands_processed"), .int 0),
         (.bytes (bytesOfAscii "command_errors"), .int 0),
         (.bytes (bytesOfAscii "connections"), .int 0),
         (.bytes (bytesOfAscii "keys"),
           .int ((hget ⟨[], [], [], ⟨0, 0, 0, 0⟩⟩ 0 [104] (.bytes [102])).2.kv.length))]),
       (hget ⟨[], [], [], ⟨0, 0, 0, 0⟩⟩ 0 [104] (.bytes [102])).2) ∧
    (hget ⟨[], [], [], ⟨0, 0, 0, 0⟩⟩ 0 [104] (.bytes [102])).2.kv.length =
      ((clean_expired ⟨[], [], [], ⟨0, 0, 0, 0⟩⟩ 0).1).kv.length + 1 :=
  C10_read_creates_container ⟨[], [], [], ⟨0, 0, 0, 0⟩⟩ 0 [104] (.bytes [102])
    (by simp [heapSorted]) rfl rfl

end DBLite
